import Mathlib

/-!
Shallow embedding of the multi-mesh synchronized traversal engine of
hermes2d (`src/hermes2d/src/mesh/traverse.cpp`), together with theorems
settling the specification claims about it.

Conventions of the embedding:
* C `uint64_t` coordinates and sub-element addresses become `Nat`; where
  overflow of a 64-bit value is possible (`sub_idx` shifts) the update is
  taken modulo `2 ^ 64` explicitly.
* `double` element areas become `ℚ` (the area test is pure comparison
  arithmetic).
* Raw pointers to elements become `Option Elem`; the per-mesh element
  trees are inductive values.
* The realloc-grown output array of states becomes a `List` (the spec,
  section 9, fixes this replacement as semantics-preserving).
* Exceptions become `Except String`; the error strings are the source's
  messages.
-/

namespace Hermes

/-- Modelled from the spec: the resolution constant `ONE` is declared in
`traverse.h`, which is not under `src/`.  The spec describes Rect fields as
fixed-point coordinates over a "normalized integer coordinate space covering
[0,1]x[0,1] at fixed resolution"; we fix one unit = `2 ^ (-63)` of the unit
square, so `ONE = 2 ^ 63`.  No claim depends on the particular power. -/
def ONE : Nat := 2 ^ 63

/-- Modulus of the C `uint64_t` type carrying `sub_idx` values. -/
def U64 : Nat := 2 ^ 64

/-- `Rect` (traverse.h / spec section 3): four fixed-point coordinates.
Initializer order in the source is `{ l, b, r, t }` (`H2D_UNITY = {0, 0, ONE, ONE}`). -/
structure Rect where
  l : Nat
  b : Nat
  r : Nat
  t : Nat
deriving DecidableEq, Repr

/-- `H2D_UNITY` (traverse.cpp line 24): the whole unit square. -/
def H2D_UNITY : Rect := ⟨0, 0, ONE, ONE⟩

/-- The non-topological attributes of a mesh element that the traversal
reads: stable id, `used` flag, triangle/quad geometry (for leaves), the
boundary flags of the four edge nodes `en[i]->bnd` and vertex nodes
`vn[i]->bnd`, and the element area (used by `testMeshesQuality`). -/
structure EData where
  id : Nat
  used : Bool
  triangle : Bool
  en0 : Bool
  en1 : Bool
  en2 : Bool
  en3 : Bool
  vn0 : Bool
  vn1 : Bool
  vn2 : Bool
  vn3 : Bool
  area : ℚ
deriving DecidableEq, Repr

/-- A per-mesh element tree node, as read by the traversal:
* `act`  — an active element (a leaf of its own mesh; `triangle` in its data
  tells its geometry),
* `tri4` — a refined triangle (always four sons `sons[0..3]`),
* `qB`   — a quad refined by both splits (`e->bsplit()`, sons `0..3`),
* `qH`   — a quad refined horizontally (`e->hsplit()`, sons `0,1`),
* `qV`   — a quad refined vertically (`e->vsplit()`, sons `2,3`). -/
inductive Elem : Type where
  | act (d : EData) : Elem
  | tri4 (d : EData) (s0 s1 s2 s3 : Elem) : Elem
  | qB (d : EData) (s0 s1 s2 s3 : Elem) : Elem
  | qH (d : EData) (s0 s1 : Elem) : Elem
  | qV (d : EData) (s2 s3 : Elem) : Elem
deriving DecidableEq, Repr

namespace Elem

def data : Elem → EData
  | act d | tri4 d _ _ _ _ | qB d _ _ _ _ | qH d _ _ | qV d _ _ => d

/-- `e->active`: the element is a leaf in its own mesh. -/
def active : Elem → Bool
  | act _ => true
  | _ => false

/-- `e->used`. -/
def used (e : Elem) : Bool := e.data.used

/-- `e->is_triangle()`. -/
def is_triangle : Elem → Bool
  | act d => d.triangle
  | tri4 _ _ _ _ _ => true
  | _ => false

/-- `e->bsplit()`. -/
def bsplit : Elem → Bool
  | qB _ _ _ _ _ => true
  | _ => false

/-- `e->hsplit()`. -/
def hsplit : Elem → Bool
  | qH _ _ _ => true
  | _ => false

/-- `e->sons[k]`.  The source only dereferences son slots that the
element's split type populates (indices 0..3 for four-way refinements,
0,1 for `hsplit`, 2,3 for `vsplit`); out-of-pattern indices collapse onto
an existing son so that every value of this function is a real son of a
refined element. -/
def son : Elem → Nat → Elem
  | act d, _ => act d
  | tri4 _ s0 s1 s2 s3, k =>
    match k with | 0 => s0 | 1 => s1 | 2 => s2 | _ => s3
  | qB _ s0 s1 s2 s3, k =>
    match k with | 0 => s0 | 1 => s1 | 2 => s2 | _ => s3
  | qH _ s0 s1, k =>
    match k with | 0 => s0 | _ => s1
  | qV _ s2 s3, k =>
    match k with | 3 => s3 | _ => s2

/-- Number of nodes of the element tree (termination measure only). -/
def esize : Elem → Nat
  | act _ => 1
  | tri4 _ s0 s1 s2 s3 => 1 + s0.esize + s1.esize + s2.esize + s3.esize
  | qB _ s0 s1 s2 s3 => 1 + s0.esize + s1.esize + s2.esize + s3.esize
  | qH _ s0 s1 => 1 + s0.esize + s1.esize
  | qV _ s2 s3 => 1 + s2.esize + s3.esize

theorem esize_pos (e : Elem) : 0 < e.esize := by
  cases e <;> simp [esize] <;> omega

theorem son_esize_lt (e : Elem) (k : Nat) (h : e.active = false) :
    (e.son k).esize < e.esize := by
  cases e with
  | act d => simp [active] at h
  | tri4 d s0 s1 s2 s3 =>
    have h0 := s0.esize_pos; have h1 := s1.esize_pos
    have h2 := s2.esize_pos; have h3 := s3.esize_pos
    simp only [son, esize]
    rcases k with _ | _ | _ | _ | k <;> simp <;> omega
  | qB d s0 s1 s2 s3 =>
    have h0 := s0.esize_pos; have h1 := s1.esize_pos
    have h2 := s2.esize_pos; have h3 := s3.esize_pos
    simp only [son, esize]
    rcases k with _ | _ | _ | _ | k <;> simp <;> omega
  | qH d s0 s1 =>
    have h0 := s0.esize_pos; have h1 := s1.esize_pos
    simp only [son, esize]
    rcases k with _ | k <;> simp <;> omega
  | qV d s2 s3 =>
    have h2 := s2.esize_pos; have h3 := s3.esize_pos
    simp only [son, esize]
    rcases k with _ | _ | _ | _ | k <;> simp <;> omega

end Elem

/-- The `int4` son table filled by `get_split_and_sons`. -/
structure I4 where
  a0 : Nat
  a1 : Nat
  a2 : Nat
  a3 : Nat
deriving DecidableEq, Repr

def I4.get (s : I4) (k : Nat) : Nat :=
  match k with | 0 => s.a0 | 1 => s.a1 | 2 => s.a2 | _ => s.a3

/-- `get_split_and_sons` (traverse.cpp lines 29-73): classify the target
rectangle `cr` against the element's own rectangle `er` given the element's
split type; returns the split code (0 = descend into a single son,
1 = branch horizontally, 2 = branch vertically, 3 = branch four ways) and
the son table. -/
def get_split_and_sons (e : Elem) (cr er : Rect) : Nat × I4 :=
  let hmid := (er.l + er.r) / 2
  let vmid := (er.t + er.b) / 2
  if e.bsplit then
    if cr.r ≤ hmid ∧ cr.t ≤ vmid then (0, ⟨0, 0, 0, 0⟩)
    else if hmid ≤ cr.l ∧ cr.t ≤ vmid then (0, ⟨1, 1, 1, 1⟩)
    else if hmid ≤ cr.l ∧ vmid ≤ cr.b then (0, ⟨2, 2, 2, 2⟩)
    else if cr.r ≤ hmid ∧ vmid ≤ cr.b then (0, ⟨3, 3, 3, 3⟩)
    else if cr.r ≤ hmid then (1, ⟨0, 0, 3, 3⟩)
    else if hmid ≤ cr.l then (1, ⟨1, 1, 2, 2⟩)
    else if cr.t ≤ vmid then (2, ⟨0, 1, 1, 0⟩)
    else if vmid ≤ cr.b then (2, ⟨3, 2, 2, 3⟩)
    else (3, ⟨0, 1, 2, 3⟩)
  else if e.hsplit then
    if cr.t ≤ vmid then (0, ⟨4, 4, 4, 4⟩)
    else if vmid ≤ cr.b then (0, ⟨5, 5, 5, 5⟩)
    else (1, ⟨4, 4, 5, 5⟩)
  else
    if cr.r ≤ hmid then (0, ⟨6, 6, 6, 6⟩)
    else if hmid ≤ cr.l then (0, ⟨7, 7, 7, 7⟩)
    else (2, ⟨6, 7, 7, 6⟩)

/-- `move_to_son` (traverse.cpp lines 75-93): shrink a rectangle to one
of its eight (quad-relative) sons by midpoint bisection. -/
def move_to_son (rold : Rect) (son : Nat) : Rect :=
  let hmid := (rold.l + rold.r) / 2
  let vmid := (rold.t + rold.b) / 2
  match son with
  | 0 => { rold with r := hmid, t := vmid }
  | 1 => { rold with l := hmid, t := vmid }
  | 2 => { rold with l := hmid, b := vmid }
  | 3 => { rold with r := hmid, b := vmid }
  | 4 => { rold with t := vmid }
  | 5 => { rold with b := vmid }
  | 6 => { rold with r := hmid }
  | 7 => { rold with l := hmid }
  | _ => rold

/-- `Traverse::State` (traverse.h / traverse.cpp): one frame of the
synchronized traversal.  Arrays of length `num` become lists; the element
pointers become `Option Elem`. -/
structure St where
  num : Nat
  e : List (Option Elem)
  sub_idx : List Nat
  cr : Rect
  er : List Rect
  bnd : List Bool
  rep : Option Elem
  rep_i : Nat
  visited : Bool
  isurf : Int
  isBnd : Bool
deriving DecidableEq, Repr

namespace St

/-- The scan both `State::is_triangle` (lines 268-281) and
`set_boundary_info` (lines 248-250) perform: the first non-null element
pointer among `e[0..num-1]`. -/
def firstE (num : Nat) (es : List (Option Elem)) : Option Elem :=
  (List.range num).foldr
    (fun i acc => match es.getD i none with
      | some el => some el
      | none => acc) none

/-- `Traverse::State::is_triangle` (traverse.cpp lines 268-281). -/
def is_triangle (s : St) : Bool :=
  match firstE s.num s.e with
  | some el => el.is_triangle
  | none => false

/-- `Traverse::State::push_transform` (traverse.cpp lines 184-215):
append a son code to the `uint64_t` sub-element address of mesh `i`
(3 bits per level, modulo `2 ^ 64`) and clear the boundary flags of the
sides the descent moves away from. -/
def push_transform (s : St) (son i : Nat) (is_tri : Bool) : St :=
  let s' := { s with
    sub_idx := s.sub_idx.set i ((s.sub_idx.getD i 0 * 8 + son + 1) % U64) }
  if is_tri then
    if son < 3 then
      { s' with bnd :=
          match son with
          | 0 => s'.bnd.set 1 false
          | 1 => s'.bnd.set 2 false
          | _ => s'.bnd.set 0 false }
    else
      { s' with bnd := [false, false, false, false] }
  else
    let b0 := if son ≠ 0 ∧ son ≠ 1 ∧ son ≠ 4 ∧ son ≠ 6 ∧ son ≠ 7 then false
              else s'.bnd.getD 0 false
    let b1 := if son ≠ 1 ∧ son ≠ 2 ∧ son ≠ 7 ∧ son ≠ 4 ∧ son ≠ 5 then false
              else s'.bnd.getD 1 false
    let b2 := if son ≠ 2 ∧ son ≠ 3 ∧ son ≠ 5 ∧ son ≠ 6 ∧ son ≠ 7 then false
              else s'.bnd.getD 2 false
    let b3 := if son ≠ 3 ∧ son ≠ 0 ∧ son ≠ 6 ∧ son ≠ 4 ∧ son ≠ 5 then false
              else s'.bnd.getD 3 false
    { s' with bnd := [b0, b1, b2, b3] }

/-- `Traverse::State::get_transform` (traverse.cpp lines 217-220). -/
def get_transform (s : St) (i : Nat) : Nat := s.sub_idx.getD i 0

/-- `Traverse::State::clone` (traverse.cpp lines 155-174): copy the first
`num` entries of `e` and `sub_idx` into fresh arrays and copy `bnd`,
`rep`, `rep_i`, `visited`, `isurf`, `isBnd`.  The fields `cr` and `er`
are not copied; the fresh `State()` leaves `cr = H2D_UNITY` and (because
`num` is zero during its constructor) an empty `er`. -/
def clone (other : St) : St :=
  { num := other.num
    e := other.e.take other.num
    sub_idx := other.sub_idx.take other.num
    cr := H2D_UNITY
    er := []
    bnd := other.bnd
    rep := other.rep
    rep_i := other.rep_i
    visited := other.visited
    isurf := other.isurf
    isBnd := other.isBnd }

end St

/-- `Traverse::set_boundary_info` (traverse.cpp lines 246-266): conjoin
the accumulated descent flags with the first non-null element's own edge
boundary markers (for quads additionally requiring the current rectangle
to touch the unit square's border) and derive `isBnd`.  The source
dereferences the first non-null element without a null check; a state
with no element at all (unreachable in a traversal) is returned
unchanged here. -/
def set_boundary_info (s : St) : St :=
  match St.firstE s.num s.e with
  | none => s
  | some e =>
    if e.is_triangle then
      let b0 := s.bnd.getD 0 false && e.data.en0
      let b1 := s.bnd.getD 1 false && e.data.en1
      let b2 := s.bnd.getD 2 false && e.data.en2
      { s with
        bnd := [b0, b1, b2, s.bnd.getD 3 false]
        isBnd := b0 || b1 || b2 || e.data.vn0 || e.data.vn1 || e.data.vn2 }
    else
      let b0 := s.bnd.getD 0 false && (decide (s.cr.b = 0) && e.data.en0)
      let b1 := s.bnd.getD 1 false && (decide (s.cr.r = ONE) && e.data.en1)
      let b2 := s.bnd.getD 2 false && (decide (s.cr.t = ONE) && e.data.en2)
      let b3 := s.bnd.getD 3 false && (decide (s.cr.l = 0) && e.data.en3)
      { s with
        bnd := [b0, b1, b2, b3]
        isBnd := b0 || b1 || b2 || b3 ||
          e.data.vn0 || e.data.vn1 || e.data.vn2 || e.data.vn3 }

/-- The classification chain inside `Traverse::init_transforms`
(traverse.cpp lines 106-114), in the source's evaluation order
0,1,2,3,6,7,4,5; `none` is the `assert(0)` branch. -/
def classify_it (cr r : Rect) : Option Nat :=
  let hmid := (r.l + r.r) / 2
  let vmid := (r.t + r.b) / 2
  if cr.r ≤ hmid ∧ cr.t ≤ vmid then some 0
  else if hmid ≤ cr.l ∧ cr.t ≤ vmid then some 1
  else if hmid ≤ cr.l ∧ vmid ≤ cr.b then some 2
  else if cr.r ≤ hmid ∧ vmid ≤ cr.b then some 3
  else if cr.r ≤ hmid then some 6
  else if hmid ≤ cr.l then some 7
  else if cr.t ≤ vmid then some 4
  else if vmid ≤ cr.b then some 5
  else none

/-- The loop of `Traverse::init_transforms` (traverse.cpp lines 100-118),
separated from the state update: starting from the element's rectangle
`r`, repeatedly classify which son of `r` contains `cr` and descend,
collecting the chosen son codes in order, until `r` matches `cr`.
`none` models the `assert(0)` branch as well as divergence (the source
loop would not terminate); the fuel of 128 covers any terminating run on
64-bit dyadic rectangles. -/
def itLoop (cr : Rect) : Nat → Rect → Option (List Nat × Rect)
  | 0, _ => none
  | fuel + 1, r =>
    if cr.l > r.l ∨ cr.r < r.r ∨ cr.b > r.b ∨ cr.t < r.t then
      match classify_it cr r with
      | none => none
      | some son =>
        match itLoop cr fuel (move_to_son r son) with
        | none => none
        | some (sons, rf) => some (son :: sons, rf)
    else
      some ([], r)

/-- `Traverse::init_transforms` (traverse.cpp lines 95-119): push the
virtual-refinement transforms of mesh `i` (whose active element is
coarser than the current rectangle) onto the state.  Each collected son
code is pushed through `push_transform(son, i, s->is_triangle())`. -/
def init_transforms (s : St) (i : Nat) : Option St :=
  match itLoop s.cr 128 (s.er.getD i H2D_UNITY) with
  | none => none
  | some (sons, _) =>
    some (sons.foldl (fun st son => st.push_transform son i st.is_triangle) s)

/-- The classification chain inside `Traverse::init_idx`
(traverse.cpp lines 690-698), whose evaluation order is 0,1,2,3,4,5,6,7 —
unlike `init_transforms`. -/
def classify_ii (cr r : Rect) : Option Nat :=
  let hmid := (r.l + r.r) / 2
  let vmid := (r.t + r.b) / 2
  if cr.r ≤ hmid ∧ cr.t ≤ vmid then some 0
  else if hmid ≤ cr.l ∧ cr.t ≤ vmid then some 1
  else if hmid ≤ cr.l ∧ vmid ≤ cr.b then some 2
  else if cr.r ≤ hmid ∧ vmid ≤ cr.b then some 3
  else if cr.t ≤ vmid then some 4
  else if vmid ≤ cr.b then some 5
  else if cr.r ≤ hmid then some 6
  else if hmid ≤ cr.l then some 7
  else none

/-- The loop of `Traverse::init_idx` (traverse.cpp lines 678-703):
accumulate the `uint64_t` path index while descending from `er` to `cr`.
`none` models the `assert(0)` branch / divergence. -/
def iiLoop (cr : Rect) : Nat → Rect → Nat → Option (Nat × Rect)
  | 0, _, _ => none
  | fuel + 1, r, idx =>
    if cr.l > r.l ∨ cr.r < r.r ∨ cr.b > r.b ∨ cr.t < r.t then
      match classify_ii cr r with
      | none => none
      | some son => iiLoop cr fuel (move_to_son r son) ((idx * 8 + son + 1) % U64)
    else
      some (idx, r)

/-- `Traverse::init_idx` (traverse.cpp lines 678-703). -/
def init_idx (cr er : Rect) : Option Nat :=
  match iiLoop cr 128 er 0 with
  | none => none
  | some (idx, _) => some idx

/-! ### Son states

A `push_state` (traverse.cpp lines 222-244) reuses a stack slot: it
resets `visited`, `isurf`, `sub_idx` (zeroed), `bnd` (all true) and
`num`, while `cr`, `er`, `rep`, `rep_i` and `isBnd` keep stale values
from the slot's previous use.  Every stale field is either overwritten
by the branch that pushes the son or never read before being
overwritten, so the constructors below give them the definite values
noted in comments.  The per-mesh loop bodies of the four expansion
branches write `e[i]`, `sub_idx[i]` and `er[i]` of distinct indices
independently and their `push_transform` calls clear the same `bnd`
sides for every active mesh, which lets the loops be stated
per-field. -/

/-- The element-pointer part of pushing a son state (the shared shape of
traverse.cpp lines 432-453, 492-515, 530-552, 562-580): unused or
absent elements become null, active elements are kept, non-active
elements move to the son selected by `f`. -/
def advanceE (num : Nat) (es : List (Option Elem)) (f : Nat → Elem → Elem) :
    List (Option Elem) :=
  (List.range num).map fun i =>
    match es.getD i none with
    | none => none
    | some el =>
      if !el.used then none
      else if el.active then some el
      else some (f i el)

/-- The `sub_idx` part of pushing a son state in the branching cases
(triangle and quad splits): `push_state` zeroes the array, the active
branch copies the parent's entry and appends `son` via
`push_transform`, the other branches leave 0. -/
def advanceSub (num : Nat) (es : List (Option Elem)) (subs : List Nat)
    (son : Nat) : List Nat :=
  (List.range num).map fun i =>
    match es.getD i none with
    | some el =>
      if el.used && el.active then (subs.getD i 0 * 8 + son + 1) % U64 else 0
    | none => 0

/-- The `er` part of pushing a son state; `g` is the per-branch update,
stale slots (null or unused meshes, and meshes `g` leaves alone) keep
the old rectangle, which the traversal never reads for them. -/
def advanceEr (num : Nat) (es : List (Option Elem)) (ers : List Rect)
    (g : Nat → Elem → Rect → Rect) : List Rect :=
  (List.range num).map fun i =>
    let r := ers.getD i H2D_UNITY
    match es.getD i none with
    | none => r
    | some el => g i el r

/-- The `bnd` flags written for a triangle son state (traverse.cpp lines
455-470).  They are copied from the parent after the per-mesh loop, so
the `push_transform` updates inside the loop are dead writes there. -/
def triSonBnd (sbnd : List Bool) (son : Nat) : List Bool :=
  if son < 3 then
    match son with
    | 0 => sbnd.set 1 false
    | 1 => sbnd.set 2 false
    | _ => sbnd.set 0 false
  else [false, false, false, false]

/-- The `bnd` flags of a freshly pushed quad son state: `push_state`
resets all four to true and the only writes in the quad branches are the
`push_transform(son, i)` calls for used active meshes (lines 504, 542),
each clearing the same sides determined by `son`. -/
def quadSonBnd (num : Nat) (es : List (Option Elem)) (son : Nat) : List Bool :=
  if (List.range num).any (fun i =>
      match es.getD i none with
      | some el => el.used && el.active
      | none => false) then
    [decide (son = 0 ∨ son = 1 ∨ son = 4 ∨ son = 6 ∨ son = 7),
     decide (son = 1 ∨ son = 2 ∨ son = 7 ∨ son = 4 ∨ son = 5),
     decide (son = 2 ∨ son = 3 ∨ son = 5 ∨ son = 6 ∨ son = 7),
     decide (son = 3 ∨ son = 0 ∨ son = 6 ∨ son = 4 ∨ son = 5)]
  else [true, true, true, true]

/-- The `current_sons` table of the quad expansion (traverse.cpp lines
477-481), filled only for non-active elements; other slots are
uninitialized in the source and never read. -/
def currentSons (s : St) : Nat → I4 := fun i =>
  match s.e.getD i none with
  | some el =>
    if !el.active then (get_split_and_sons el s.cr (s.er.getD i H2D_UNITY)).2
    else ⟨0, 0, 0, 0⟩
  | none => ⟨0, 0, 0, 0⟩

/-- The accumulated split code of the quad expansion (traverse.cpp lines
478-481): bitwise or of the split codes of all non-null non-active
elements (the source does not test `used` here). -/
def splitOf (s : St) : Nat :=
  (List.range s.num).foldl
    (fun a i =>
      match s.e.getD i none with
      | some el =>
        if !el.active then
          a ||| (get_split_and_sons el s.cr (s.er.getD i H2D_UNITY)).1
        else a
      | none => a) 0

/-- Triangle son state (traverse.cpp lines 424-471).  The triangle
branch never writes `cr`/`er` (their stale slot values are never read on
triangle states). -/
def mkSonTri (s : St) (son : Nat) : St :=
  { num := s.num
    e := advanceE s.num s.e fun _ el => el.son son
    sub_idx := advanceSub s.num s.e s.sub_idx son
    cr := s.cr
    er := s.er
    bnd := triSonBnd s.bnd son
    rep := none
    rep_i := 0
    visited := false
    isurf := -1
    isBnd := false }

/-- Quad son state for `split == 3` (traverse.cpp lines 484-517). -/
def mkSonQ3 (s : St) (cs : Nat → I4) (son : Nat) : St :=
  { num := s.num
    e := advanceE s.num s.e fun i el => el.son ((cs i).get son &&& 3)
    sub_idx := advanceSub s.num s.e s.sub_idx son
    cr := move_to_son s.cr son
    er := advanceEr s.num s.e s.er fun i el r =>
      if el.used && !el.active then move_to_son r ((cs i).get son) else r
    bnd := quadSonBnd s.num s.e son
    rep := none
    rep_i := 0
    visited := false
    isurf := -1
    isBnd := false }

/-- Quad son state for a two-way split (traverse.cpp lines 519-554);
`j` is 0 for sons 4 and 6, 2 for sons 5 and 7 (line 529). -/
def mkSonQ2 (s : St) (cs : Nat → I4) (son j : Nat) : St :=
  { num := s.num
    e := advanceE s.num s.e fun i el => el.son ((cs i).get j &&& 3)
    sub_idx := advanceSub s.num s.e s.sub_idx son
    cr := move_to_son s.cr son
    er := advanceEr s.num s.e s.er fun i el r =>
      if el.used && !el.active then move_to_son r ((cs i).get j) else r
    bnd := quadSonBnd s.num s.e son
    rep := none
    rep_i := 0
    visited := false
    isurf := -1
    isBnd := false }

/-- Quad son state for `split == 0` (traverse.cpp lines 556-581): `cr`
is copied unchanged; the active branch resets `er[i]` to `cr` and —
unlike every other branch — does not copy `sub_idx[i]`, leaving it 0. -/
def mkSonQ0 (s : St) (cs : Nat → I4) : St :=
  { num := s.num
    e := advanceE s.num s.e fun i el => el.son ((cs i).get 0 &&& 3)
    sub_idx := List.replicate s.num 0
    cr := s.cr
    er := advanceEr s.num s.e s.er fun i el r =>
      if el.used then
        (if el.active then s.cr else move_to_son r ((cs i).get 0))
      else r
    bnd := [true, true, true, true]
    rep := none
    rep_i := 0
    visited := false
    isurf := -1
    isBnd := false }

/-! ### The traversal loop -/

def overflowMsg : String := "Stack overflow. Increase stack size."

def assertITMsg : String := "assert failure in Traverse::init_transforms"

def fuelMsg : String := "out of fuel"

/-- The transformation step on entering a state (traverse.cpp lines
374-383): for every used, active, non-triangle mesh element whose
`sub_idx` is still 0, run `init_transforms`. -/
def initStep (s : St) : Except String St :=
  (List.range s.num).foldlM
    (fun st i =>
      match st.e.getD i none with
      | none => Except.ok st
      | some el =>
        if el.used && decide (st.sub_idx.getD i 0 = 0) && el.active
            && !el.is_triangle then
          match init_transforms st i with
          | none => Except.error assertITMsg
          | some st' => Except.ok st'
        else Except.ok st) s

/-- The leaf test (traverse.cpp lines 385-395): every non-null used
element is active. -/
def leafCheckB (s : St) : Bool :=
  (List.range s.num).all fun i =>
    match s.e.getD i none with
    | none => true
    | some el => !el.used || el.active

/-- The representative scan at a leaf (traverse.cpp lines 407-418):
`rep` is reset and then overwritten by `e[j]` for every used mesh
`j < spaces_size` in order — without a break, so the last such mesh
wins. -/
def repStep (st : St) (j : Nat) : St :=
  match st.e.getD j none with
  | some el => if el.used then { st with rep := some el, rep_i := j } else st
  | none => st

def repAssign (sp : Nat) (s : St) : St :=
  (List.range sp).foldl repStep { s with rep := none }

/-- Termination measure (not part of the source): total size of the
non-active element trees of a state. -/
def mes : Option Elem → Nat
  | none => 0
  | some el => if el.active then 0 else el.esize

def muE (num : Nat) (es : List (Option Elem)) : Nat :=
  ((List.range num).map fun i => mes (es.getD i none)).sum

/-- The body of the `while (1)` loop of `Traverse::get_states`
(traverse.cpp lines 311-584) for the subtree rooted at one state, in
recursive form: the source pushes son states onto an explicit stack in
son order and always resumes at the top of the stack, which processes
the sons — and their whole subtrees — in reverse push order.  `p` is
the stack index the state occupies (its `push_state` incremented `top`
to `p + 1`); a push at index `size` or beyond throws the stack-overflow
exception.  The result is the list of emitted (cloned) leaf states in
emission order, paired with the trace of all processed states (the
snapshot at the leaf test of line 385, flagged true when the state was
emitted).  The fuel argument only forces structural termination; every
call consumes one unit while the measure `muE` strictly decreases, so
`1 + muE` units suffice and the fuel error is unreachable from
`get_states`. -/
def processState (sp size : Nat) :
    Nat → Nat → St → Except String (List St × List (St × Bool))
  | 0, _, _ => Except.error fuelMsg
  | fuel + 1, p, s =>
    match initStep { s with visited := true } with
    | Except.error m => Except.error m
    | Except.ok s2 =>
      if leafCheckB s2 then
        let s4 := repAssign sp (set_boundary_info s2)
        if s4.rep.isSome then Except.ok ([s4.clone], [(s2, true)])
        else Except.ok ([], [(s2, false)])
      else if s2.is_triangle then
        if size ≤ p + 4 then Except.error overflowMsg
        else
          match processState sp size fuel (p + 4) (mkSonTri s2 3) with
          | Except.error m => Except.error m
          | Except.ok (e3, t3) =>
            match processState sp size fuel (p + 3) (mkSonTri s2 2) with
            | Except.error m => Except.error m
            | Except.ok (e2, t2) =>
              match processState sp size fuel (p + 2) (mkSonTri s2 1) with
              | Except.error m => Except.error m
              | Except.ok (e1, t1) =>
                match processState sp size fuel (p + 1) (mkSonTri s2 0) with
                | Except.error m => Except.error m
                | Except.ok (e0, t0) =>
                  Except.ok (e3 ++ e2 ++ e1 ++ e0,
                    (s2, false) :: (t3 ++ t2 ++ t1 ++ t0))
      else
        let cs := currentSons s2
        let split := splitOf s2
        if split = 3 then
          if size ≤ p + 4 then Except.error overflowMsg
          else
            match processState sp size fuel (p + 4) (mkSonQ3 s2 cs 3) with
            | Except.error m => Except.error m
            | Except.ok (e3, t3) =>
              match processState sp size fuel (p + 3) (mkSonQ3 s2 cs 2) with
              | Except.error m => Except.error m
              | Except.ok (e2, t2) =>
                match processState sp size fuel (p + 2) (mkSonQ3 s2 cs 1) with
                | Except.error m => Except.error m
                | Except.ok (e1, t1) =>
                  match processState sp size fuel (p + 1) (mkSonQ3 s2 cs 0) with
                  | Except.error m => Except.error m
                  | Except.ok (e0, t0) =>
                    Except.ok (e3 ++ e2 ++ e1 ++ e0,
                      (s2, false) :: (t3 ++ t2 ++ t1 ++ t0))
        else if 0 < split then
          let son0 := if split = 2 then 6 else 4
          if size ≤ p + 2 then Except.error overflowMsg
          else
            match processState sp size fuel (p + 2) (mkSonQ2 s2 cs (son0 + 1) 2) with
            | Except.error m => Except.error m
            | Except.ok (eb, tb) =>
              match processState sp size fuel (p + 1) (mkSonQ2 s2 cs son0 0) with
              | Except.error m => Except.error m
              | Except.ok (ea, ta) =>
                Except.ok (eb ++ ea, (s2, false) :: (tb ++ ta))
        else
          if size ≤ p + 1 then Except.error overflowMsg
          else
            match processState sp size fuel (p + 1) (mkSonQ0 s2 cs) with
            | Except.error m => Except.error m
            | Except.ok (e0, t0) => Except.ok (e0, (s2, false) :: t0)

/-! ### Meshes and the top-level driver -/

/-- A mesh as the traversal sees it: the list of its base elements,
indexed by id. -/
structure Mesh where
  elems : List Elem
deriving DecidableEq, Repr

def Mesh.get_num_base_elements (m : Mesh) : Nat := m.elems.length

/-- Placeholder for an out-of-range `get_element` (undefined behaviour
in the source); an unused element never produced by the in-range
lookups the theorems below perform. -/
def junkElem : Elem :=
  .act ⟨0, false, false, false, false, false, false, false, false, false, false, 0⟩

def Mesh.get_element (m : Mesh) (id : Nat) : Elem := m.elems.getD id junkElem

def emptyMesh : Mesh := ⟨[]⟩

/-- Whether any mesh has a used element with this base id (the `nused`
count of traverse.cpp lines 341-359 viewed as a flag). -/
def nusedB (ms : List Mesh) (num id : Nat) : Bool :=
  (List.range num).any fun i => ((ms.getD i emptyMesh).get_element id).used

/-- The initial state of a base element (traverse.cpp lines 325-371):
`cr` and the used meshes' `er` cover the whole unit square, `sub_idx`
is zero everywhere, unused meshes' elements are null.  The base loop
also leaves `rep` pointing at the last used mesh's element with
`rep_i = 0` (lines 353-355); both are overwritten at every leaf. -/
def baseState (ms : List Mesh) (num id : Nat) : St :=
  let es := (List.range num).map fun i =>
    let el := (ms.getD i emptyMesh).get_element id
    if el.used then some el else none
  { num := num
    e := es
    sub_idx := List.replicate num 0
    cr := H2D_UNITY
    er := List.replicate num H2D_UNITY
    bnd := [true, true, true, true]
    rep := (List.range num).foldl
      (fun r i => match es.getD i none with
        | some el => some el
        | none => r) none
    rep_i := 0
    visited := false
    isurf := -1
    isBnd := false }

/-- Sufficient fuel for `processState` on a state. -/
def stFuel (s : St) : Nat := 1 + muE s.num s.e

/-- The outer base-element loop of `Traverse::get_states` (traverse.cpp
lines 321-372): walk the remaining base element ids in ascending order,
skip ids with no used element, push each remaining id's base state at
stack index 0 (the stack is empty again between base elements) and
process its subtree, appending the emitted states. -/
def basesLoop (ms : List Mesh) (sp num size : Nat) :
    List Nat → List St × List (St × Bool) →
    Except String (List St × List (St × Bool))
  | [], acc => Except.ok acc
  | id :: rest, acc =>
    if nusedB ms num id then
      if size ≤ 0 then Except.error overflowMsg
      else
        match processState sp size (stFuel (baseState ms num id)) 0
            (baseState ms num id) with
        | Except.error m => Except.error m
        | Except.ok (em, tr) =>
          basesLoop ms sp num size rest (acc.1 ++ em, acc.2 ++ tr)
    else basesLoop ms sp num size rest acc

/-- `Traverse::get_states` (traverse.cpp lines 297-586) for a `Traverse`
constructed with `spaces_size = sp`: `begin` fixes the stack capacity at
256 (line 649); base element ids of `meshes[0]` are visited in ascending
order, ids with no used element on any mesh are skipped, and each used
id's base state is pushed at stack index 0 and fully processed.  The
returned pair is the emitted (cloned) leaf states in emission order and
the processing trace; the source performs no mesh-compatibility check
here. -/
def get_states (ms : List Mesh) (sp : Nat) :
    Except String (List St × List (St × Bool)) :=
  basesLoop ms sp ms.length 256
    (List.range ((ms.getD 0 emptyMesh).get_num_base_elements)) ([], [])

/-- The emitted states only (the `states` array the caller receives). -/
def get_states_list (ms : List Mesh) (sp : Nat) : Except String (List St) :=
  match get_states ms sp with
  | Except.error m => Except.error m
  | Except.ok (em, _) => Except.ok em

/-- The guard of `Traverse::push_state` (traverse.cpp lines 222-227):
pushing with the top index at or beyond the capacity throws; otherwise
the push succeeds and returns the new top index. -/
def push_state_check (top size : Nat) : Except String Nat :=
  if size ≤ top then Except.error overflowMsg else Except.ok (top + 1)

/-- The stack bookkeeping of `Traverse::begin` (traverse.cpp lines
644-655): capacity 256, empty stack. -/
structure TraverseStack where
  size : Nat
  top : Nat
deriving DecidableEq, Repr

def Traverse.begin (_n : Nat) : TraverseStack := { size := 256, top := 0 }

/-! ### Mesh compatibility checks and union-mesh construction -/

def complianceMsg : String := "Meshes not compatible in Traverse::begin()."

def distortedMsg : String :=
  "An element is probably too distorted, try different meshing."

def valueExcMsg : String := "ValueException: min_elem_area"

def assertIIMsg : String := "assert failure in Traverse::init_idx"

/-- `testMeshesCompliance` (traverse.cpp lines 588-595): every mesh must
have the same number of base elements as the first. -/
def testMeshesCompliance (ms : List Mesh) : Except String Unit :=
  match ms with
  | [] => Except.ok ()
  | m0 :: rest =>
    if rest.all fun m =>
        m.get_num_base_elements = m0.get_num_base_elements then
      Except.ok ()
    else Except.error complianceMsg

/-- Modelled from the spec: `Hermes::HermesSqrtEpsilon` comes from
hermes_common headers that are not under `src/`; it is the square root
of the double-precision machine epsilon, `2 ^ (-26)`. -/
def HermesSqrtEpsilon : ℚ := 1 / 2 ^ 26

/-- The `areas` table of `testMeshesQuality` (traverse.cpp lines
602-621): the base element areas of the first mesh, 0 for unused. -/
def qualAreas (m0 : Mesh) : List ℚ :=
  m0.elems.map fun e => if e.used then e.data.area else 0

/-- The `min_elem_area` accumulator of `testMeshesQuality` (traverse.cpp
lines 608-617): minimum used base element area of the first mesh,
starting from `1e30`. -/
def qualMin (m0 : Mesh) : ℚ :=
  m0.elems.foldl
    (fun mn e => if e.used ∧ e.data.area < mn then e.data.area else mn)
    ((10 : ℚ) ^ 30)

/-- C `fabs` on the rational model of `double`. -/
def fabs (q : ℚ) : ℚ := if q < 0 then -q else q

/-- The per-element rejection condition of `testMeshesQuality`
(traverse.cpp lines 633-637) for entry `ke = (counter, element)` of a
later mesh. -/
def qualViol (m0 : Mesh) (ke : Nat × Elem) : Prop :=
  ke.2.used
    ∧ fabs ((qualAreas m0).getD ke.1 0 - ke.2.data.area) > qualMin m0 / 100
    ∧ (qualAreas m0).getD ke.1 0 > HermesSqrtEpsilon

instance (m0 : Mesh) (ke : Nat × Elem) : Decidable (qualViol m0 ke) := by
  unfold qualViol; infer_instance

/-- `testMeshesQuality` (traverse.cpp lines 597-642): record the base
element areas of the first mesh (0 for unused elements) and the minimum
used area, then reject any later mesh with a used base element whose
area differs from the recorded one by more than `min / 100` (ignoring
recorded areas at or below `HermesSqrtEpsilon`).  A negative minimum is
a `ValueException`.  Reading `areas` out of range (meshes with more
base elements than the first) is undefined behaviour in the source and
modelled as 0. -/
def testMeshesQuality (ms : List Mesh) : Except String Unit :=
  match ms with
  | [] => Except.ok ()
  | m0 :: rest =>
    if qualMin m0 < 0 then Except.error valueExcMsg
    else
      rest.foldlM
        (fun _ m =>
          m.elems.enum.foldlM
            (fun _ ke =>
              if qualViol m0 ke then Except.error distortedMsg
              else Except.ok ())
            ())
        ()

/-- Modelled from the spec: the union mesh is a synthesized tree that
the builder refines in place (`Mesh::refine_element_id` is not under
`src/`); per spec section 4.2 a refinement creates the son nodes the
recursion then descends into, and leaves carry a stable id.  A node is
modelled by its id and geometry; refinement hands out fresh ids
sequentially. -/
structure UniNode where
  id : Nat
  triangle : Bool
deriving DecidableEq, Repr

/-- The mutable context of one union-mesh construction: the `udsize`
capacity, the per-mesh `UniData` tables (entry = `(element,
sub-address)` indexed by union-leaf id, `none` marking never-written
slots of the realloc'd region) and the next fresh union element id. -/
structure UniCtx where
  udsize : Nat
  unidata : List (List (Option (Elem × Nat)))
  nextId : Nat
deriving DecidableEq, Repr

/-- The doubling loop of `union_recurrent`'s table growth (traverse.cpp
lines 724-726): double `u` until it exceeds `id`.  The fuel `id + 1`
of `udGrow` always suffices for `u ≥ 1`; for `u = 0` the source loop
would never terminate (unreachable: the caller replaces 0 by 1024). -/
def growLoop (id : Nat) : Nat → Nat → Nat
  | 0, u => u
  | fuel + 1, u => if u ≤ id then growLoop id fuel (2 * u) else u

/-- The table capacity after the growth step of `union_recurrent`
(traverse.cpp lines 722-726): grow only when `udsize <= uni->id`,
starting from 1024 when the table was empty and doubling until the
capacity exceeds the id. -/
def udGrow (udsize id : Nat) : Nat :=
  if udsize ≤ id then
    growLoop id (id + 1) (if udsize = 0 then 1024 else udsize)
  else udsize

/-- Termination measure for `union_recurrent`: total size of the
non-active source trees. -/
def muL (num : Nat) (es : List Elem) : Nat :=
  ((List.range num).map fun i =>
    if (es.getD i junkElem).active then 0 else (es.getD i junkElem).esize).sum

/-- One son's advanced per-mesh arrays in the quad branches of
`union_recurrent` (traverse.cpp lines 779-797, 808-828, 832-846):
active elements are kept (`son = some s` appends `s` to their path;
`none` — the no-split branch — keeps the path unchanged), non-active
elements move to the son selected by slot `sidx` of their son table,
shrinking their rectangle; a son that becomes active gets its path
recomputed by `init_idx` against the new current rectangle. -/
def uniAdvance (num : Nat) (cr : Rect) (e : List Elem) (er : List Rect)
    (idx : List Nat) (son : Option Nat) (sidx : Nat) (crNew : Rect) :
    Except String (List Elem × List Rect × List Nat) :=
  let eNew := (List.range num).map fun i =>
    let el := e.getD i junkElem
    if el.active then el
    else el.son ((get_split_and_sons el cr (er.getD i H2D_UNITY)).2.get sidx &&& 3)
  let erNew := (List.range num).map fun i =>
    let el := e.getD i junkElem
    if el.active then er.getD i H2D_UNITY
    else move_to_son (er.getD i H2D_UNITY)
      ((get_split_and_sons el cr (er.getD i H2D_UNITY)).2.get sidx)
  match (List.range num).mapM (fun i =>
      let el := e.getD i junkElem
      if el.active then
        match son with
        | some s => Except.ok ((idx.getD i 0 * 8 + s + 1) % U64)
        | none => Except.ok (idx.getD i 0)
      else if (eNew.getD i junkElem).active then
        match init_idx crNew (erNew.getD i H2D_UNITY) with
        | none => Except.error assertIIMsg
        | some v => Except.ok v
      else Except.ok (idx.getD i 0)) with
  | Except.error m => Except.error m
  | Except.ok idxNew => Except.ok (eNew, erNew, idxNew)

/-- The leaf case of `union_recurrent` (traverse.cpp lines 719-736):
grow the tables when `udsize <= uni->id` (realloc extends them with
unwritten slots, modelled as `none`) and record `(e[i], idx[i])` at
index `uni->id` of every mesh's table. -/
def uniLeafResult (num : Nat) (e : List Elem) (idx : List Nat)
    (uni : UniNode) (ctx : UniCtx) : UniCtx :=
  { ctx with
    udsize := udGrow ctx.udsize uni.id
    unidata := (List.range num).map fun i =>
      ((if ctx.udsize ≤ uni.id then
          ctx.unidata.map fun t =>
            t ++ List.replicate (udGrow ctx.udsize uni.id - t.length) none
        else ctx.unidata).getD i []).set uni.id
        (some (e.getD i junkElem, idx.getD i 0)) }

/-- `Traverse::union_recurrent` (traverse.cpp lines 705-854).  When all
source elements are active the recursion bottoms out: the tables are
grown if `udsize <= uni->id` and `(e[i], idx[i])` is recorded at index
`uni->id` of every mesh's table.  Otherwise the union node is refined
(four fresh sons for triangles and both-splits, two for single splits,
none in the no-split case, which recurses on `uni` itself) and the
recursion visits the sons in ascending son order.  The source passes
null rectangle pointers in the triangle case; the rectangles are
carried along unchanged there (they are never read on triangle
paths). -/
def union_recurrent (num : Nat) :
    Nat → Rect → List Elem → List Rect → List Nat → UniNode → UniCtx →
    Except String UniCtx
  | 0, _, _, _, _, _, _ => Except.error fuelMsg
  | fuel + 1, cr, e, er, idx, uni, ctx =>
    if (List.range num).all (fun i => (e.getD i junkElem).active) then
      Except.ok (uniLeafResult num e idx uni ctx)
    else if uni.triangle then
      let base := ctx.nextId
      let eN := fun (son : Nat) => (List.range num).map fun i =>
        let el := e.getD i junkElem
        if el.active then el else el.son son
      let idxN := fun (son : Nat) => (List.range num).map fun i =>
        let el := e.getD i junkElem
        if el.active then (idx.getD i 0 * 8 + son + 1) % U64
        else idx.getD i 0
      match union_recurrent num fuel cr (eN 0) er (idxN 0)
          ⟨base, true⟩ { ctx with nextId := ctx.nextId + 4 } with
      | Except.error m => Except.error m
      | Except.ok c1 =>
        match union_recurrent num fuel cr (eN 1) er (idxN 1)
            ⟨base + 1, true⟩ c1 with
        | Except.error m => Except.error m
        | Except.ok c2 =>
          match union_recurrent num fuel cr (eN 2) er (idxN 2)
              ⟨base + 2, true⟩ c2 with
          | Except.error m => Except.error m
          | Except.ok c3 =>
            union_recurrent num fuel cr (eN 3) er (idxN 3)
              ⟨base + 3, true⟩ c3
    else
      let split := (List.range num).foldl
        (fun a i =>
          let el := e.getD i junkElem
          if !el.active then
            a ||| (get_split_and_sons el cr (er.getD i H2D_UNITY)).1
          else a) 0
      if split = 3 then
        let base := ctx.nextId
        match uniAdvance num cr e er idx (some 0) 0 (move_to_son cr 0) with
        | Except.error m => Except.error m
        | Except.ok (e0, er0, i0) =>
          match union_recurrent num fuel (move_to_son cr 0) e0 er0 i0
              ⟨base, false⟩ { ctx with nextId := ctx.nextId + 4 } with
          | Except.error m => Except.error m
          | Except.ok c1 =>
            match uniAdvance num cr e er idx (some 1) 1 (move_to_son cr 1) with
            | Except.error m => Except.error m
            | Except.ok (e1, er1, i1) =>
              match union_recurrent num fuel (move_to_son cr 1) e1 er1 i1
                  ⟨base + 1, false⟩ c1 with
              | Except.error m => Except.error m
              | Except.ok c2 =>
                match uniAdvance num cr e er idx (some 2) 2 (move_to_son cr 2) with
                | Except.error m => Except.error m
                | Except.ok (e2, er2, i2) =>
                  match union_recurrent num fuel (move_to_son cr 2) e2 er2 i2
                      ⟨base + 2, false⟩ c2 with
                  | Except.error m => Except.error m
                  | Except.ok c3 =>
                    match uniAdvance num cr e er idx (some 3) 3 (move_to_son cr 3) with
                    | Except.error m => Except.error m
                    | Except.ok (e3, er3, i3) =>
                      union_recurrent num fuel (move_to_son cr 3) e3 er3 i3
                        ⟨base + 3, false⟩ c3
      else if 0 < split then
        let son0 := if split = 2 then 6 else 4
        let base := ctx.nextId
        match uniAdvance num cr e er idx (some son0) 0 (move_to_son cr son0) with
        | Except.error m => Except.error m
        | Except.ok (ea, era, ia) =>
          match union_recurrent num fuel (move_to_son cr son0) ea era ia
              ⟨base, false⟩ { ctx with nextId := ctx.nextId + 2 } with
          | Except.error m => Except.error m
          | Except.ok c1 =>
            match uniAdvance num cr e er idx (some (son0 + 1)) 2
                (move_to_son cr (son0 + 1)) with
            | Except.error m => Except.error m
            | Except.ok (eb, erb, ib) =>
              union_recurrent num fuel (move_to_son cr (son0 + 1)) eb erb ib
                ⟨base + 1, false⟩ c1
      else
        match uniAdvance num cr e er idx none 0 cr with
        | Except.error m => Except.error m
        | Except.ok (e0, er0, i0) =>
          union_recurrent num fuel cr e0 er0 i0 uni ctx

/-- `Traverse::construct_union_mesh` (traverse.cpp lines 856-902): check
mesh compliance first, then run `union_recurrent` over every base
element id used on the first mesh, with unit rectangles and zero paths.
The union mesh starts as a copy of mesh 0's base partition, so its base
elements carry the base ids and fresh ids continue after them. -/
def construct_union_mesh (ms : List Mesh) : Except String UniCtx :=
  match testMeshesCompliance ms with
  | Except.error m => Except.error m
  | Except.ok _ =>
    let n := ms.length
    let m0 := ms.getD 0 emptyMesh
    (List.range m0.get_num_base_elements).foldlM
      (fun ctx id =>
        if !(m0.get_element id).used then Except.ok ctx
        else
          union_recurrent n
            (1 + muL n (ms.map fun m => m.get_element id)) H2D_UNITY
            (ms.map fun m => m.get_element id)
            (List.replicate n H2D_UNITY) (List.replicate n 0)
            ⟨id, (m0.get_element id).is_triangle⟩ ctx)
      ⟨0, List.replicate n [], m0.get_num_base_elements⟩

/-! ### C7: the `sub_idx` path encoding -/

/-- A sequence of descent steps applied to mesh `i` of a state through
`push_transform`. -/
def pushSeq (s : St) (i : Nat) (sons : List Nat) (tri : Bool) : St :=
  sons.foldl (fun st son => st.push_transform son i tri) s

/-- The pure `uint64_t` value of a descent path appended to `v`. -/
def pathValM (v : Nat) (sons : List Nat) : Nat :=
  sons.foldl (fun a d => (a * 8 + d + 1) % U64) v

/-- The unbounded value of a descent path appended to `v`. -/
def pathVal (v : Nat) (sons : List Nat) : Nat :=
  sons.foldl (fun a d => a * 8 + d + 1) v

theorem push_transform_sub_idx (s : St) (son i : Nat) (tri : Bool) :
    (s.push_transform son i tri).sub_idx
      = s.sub_idx.set i ((s.sub_idx.getD i 0 * 8 + son + 1) % U64) := by
  unfold St.push_transform
  split
  · split
    · split <;> rfl
    · rfl
  · rfl

theorem getD_set_self {α : Type} (l : List α) (i : Nat) (v d : α)
    (h : i < l.length) : (l.set i v).getD i d = v := by
  simp [List.getD_eq_getElem?_getD, List.getElem?_set_self',
    List.getElem?_eq_getElem h]

theorem getD_range_map {α : Type} (f : Nat → α) (n i : Nat) (d : α)
    (h : i < n) : ((List.range n).map f).getD i d = f i := by
  rw [List.getD_eq_getElem?_getD, List.getElem?_map, List.getElem?_range h]
  rfl

theorem getD_map_lt {α β : Type} (f : α → β) (l : List α) (i : Nat) (d : β)
    (dd : α) (h : i < l.length) :
    (l.map f).getD i d = f (l.getD i dd) := by
  rw [List.getD_eq_getElem?_getD, List.getElem?_map,
    List.getElem?_eq_getElem h, List.getD_eq_getElem?_getD,
    List.getElem?_eq_getElem h]
  rfl

theorem push_transform_sub_idx_getD (s : St) (son i : Nat) (tri : Bool)
    (h : i < s.sub_idx.length) :
    (s.push_transform son i tri).sub_idx.getD i 0
      = (s.sub_idx.getD i 0 * 8 + son + 1) % U64 := by
  rw [push_transform_sub_idx]
  exact getD_set_self _ _ _ _ h

theorem pushSeq_sub_idx (i : Nat) (tri : Bool) (sons : List Nat) :
    ∀ s : St, i < s.sub_idx.length →
      (pushSeq s i sons tri).sub_idx.getD i 0
        = pathValM (s.sub_idx.getD i 0) sons := by
  induction sons with
  | nil => intro s _; rfl
  | cons d rest ih =>
    intro s h
    have hlen : i < (s.push_transform d i tri).sub_idx.length := by
      rw [push_transform_sub_idx, List.length_set]; exact h
    have := ih (s.push_transform d i tri) hlen
    simp only [pushSeq, List.foldl_cons] at *
    rw [this, push_transform_sub_idx_getD s d i tri h]
    rfl

theorem pathVal_snoc (v : Nat) (sons : List Nat) (d : Nat) :
    pathVal v (sons ++ [d]) = pathVal v sons * 8 + d + 1 := by
  simp [pathVal, List.foldl_append]

theorem pathVal_le (sons : List Nat) :
    ∀ v, (∀ d ∈ sons, d < 8) → 7 * pathVal v sons + 8 ≤ (7 * v + 8) * 8 ^ sons.length := by
  induction sons with
  | nil => intro v _; simp [pathVal]
  | cons d rest ih =>
    intro v h
    have hd : d < 8 := h d (List.mem_cons_self d rest)
    have hrest : ∀ x ∈ rest, x < 8 := fun x hx => h x (List.mem_cons_of_mem d hx)
    have := ih (v * 8 + d + 1) hrest
    calc 7 * pathVal v (d :: rest) + 8
        = 7 * pathVal (v * 8 + d + 1) rest + 8 := rfl
      _ ≤ (7 * (v * 8 + d + 1) + 8) * 8 ^ rest.length := this
      _ ≤ ((7 * v + 8) * 8) * 8 ^ rest.length := by
          have : 7 * (v * 8 + d + 1) + 8 ≤ (7 * v + 8) * 8 := by omega
          exact Nat.mul_le_mul_right _ this
      _ = (7 * v + 8) * 8 ^ (d :: rest).length := by
          rw [List.length_cons, pow_succ]; ring

theorem pathVal_ge (sons : List Nat) : ∀ v, v ≤ pathVal v sons := by
  induction sons with
  | nil => intro v; exact Nat.le_refl v
  | cons d rest ih =>
    intro v
    exact Nat.le_trans (by omega) (ih (v * 8 + d + 1))

theorem pathValM_eq_pathVal (sons : List Nat) :
    ∀ v, pathVal v sons < U64 → pathValM v sons = pathVal v sons := by
  induction sons with
  | nil => intro v _; rfl
  | cons d rest ih =>
    intro v h
    have hstep : v * 8 + d + 1 ≤ pathVal (v * 8 + d + 1) rest := pathVal_ge rest _
    have hlt : v * 8 + d + 1 < U64 := Nat.lt_of_le_of_lt hstep h
    calc pathValM v (d :: rest) = pathValM ((v * 8 + d + 1) % U64) rest := rfl
      _ = pathValM (v * 8 + d + 1) rest := by rw [Nat.mod_eq_of_lt hlt]
      _ = pathVal (v * 8 + d + 1) rest := ih _ h
      _ = pathVal v (d :: rest) := rfl

theorem pathVal_lt_U64 (sons : List Nat) (h : ∀ d ∈ sons, d < 8)
    (hlen : sons.length ≤ 21) : pathVal 0 sons < U64 := by
  have hb := pathVal_le sons 0 h
  have hpow : (8 : Nat) ^ sons.length ≤ 8 ^ 21 :=
    Nat.pow_le_pow_right (by norm_num) hlen
  have : 7 * pathVal 0 sons + 8 ≤ 8 * 8 ^ 21 := by
    calc 7 * pathVal 0 sons + 8 ≤ (7 * 0 + 8) * 8 ^ sons.length := hb
      _ = 8 * 8 ^ sons.length := by ring
      _ ≤ 8 * 8 ^ 21 := Nat.mul_le_mul_left _ hpow
  have h8 : (8 : Nat) * 8 ^ 21 = 73786976294838206464 := by norm_num
  have hU : U64 = 18446744073709551616 := by norm_num [U64]
  omega

theorem pathVal_inj (s : List Nat) :
    ∀ t : List Nat, (∀ d ∈ s, d < 8) → (∀ d ∈ t, d < 8) →
      pathVal 0 s = pathVal 0 t → s = t := by
  induction s using List.reverseRecOn with
  | nil =>
    intro t _ _ h
    induction t using List.reverseRecOn with
    | nil => rfl
    | append_singleton t' d _ =>
      rw [pathVal_snoc] at h
      simp [pathVal] at h
  | append_singleton s' c ih =>
    intro t hs ht h
    induction t using List.reverseRecOn with
    | nil =>
      rw [pathVal_snoc] at h
      simp [pathVal] at h
    | append_singleton t' d _ =>
      rw [pathVal_snoc, pathVal_snoc] at h
      have hc : c < 8 := hs c (by simp)
      have hd : d < 8 := ht d (by simp)
      have hcd : c = d ∧ pathVal 0 s' = pathVal 0 t' := by
        constructor <;> omega
      have hs' : ∀ x ∈ s', x < 8 := fun x hx => hs x (by simp [hx])
      have ht' : ∀ x ∈ t', x < 8 := fun x hx => ht x (by simp [hx])
      rw [ih t' hs' ht' hcd.2, hcd.1]

/-- C7 (amended): `push_transform` updates `sub_idx[i]` to
`(sub_idx[i] << 3) + son + 1` as a 64-bit value, and the path encoding is
injective on descent sequences of at most 21 steps (the value then still
fits in 64 bits); sequences of 22 or more steps can collide
(`claim_C7_counterexample`). -/
theorem claim_C7 :
    (∀ (s : St) (son i : Nat) (tri : Bool), i < s.sub_idx.length →
      (s.push_transform son i tri).sub_idx.getD i 0
        = (s.sub_idx.getD i 0 * 8 + son + 1) % U64)
    ∧ (∀ (s : St) (i : Nat) (tri : Bool) (sons1 sons2 : List Nat),
        i < s.sub_idx.length → s.sub_idx.getD i 0 = 0 →
        (∀ d ∈ sons1, d < 8) → (∀ d ∈ sons2, d < 8) →
        sons1.length ≤ 21 → sons2.length ≤ 21 →
        (pushSeq s i sons1 tri).sub_idx.getD i 0
          = (pushSeq s i sons2 tri).sub_idx.getD i 0 →
        sons1 = sons2) := by
  constructor
  · exact push_transform_sub_idx_getD
  · intro s i tri sons1 sons2 hlen hzero h1 h2 hl1 hl2 heq
    rw [pushSeq_sub_idx i tri sons1 s hlen, pushSeq_sub_idx i tri sons2 s hlen,
      hzero] at heq
    rw [pathValM_eq_pathVal sons1 0 (pathVal_lt_U64 sons1 h1 hl1),
      pathValM_eq_pathVal sons2 0 (pathVal_lt_U64 sons2 h2 hl2)] at heq
    exact pathVal_inj sons1 sons2 h1 h2 heq

/-- A minimal concrete state for evaluating descent sequences. -/
def c7St : St :=
  { num := 1
    e := [some junkElem]
    sub_idx := [0]
    cr := H2D_UNITY
    er := [H2D_UNITY]
    bnd := [true, true, true, true]
    rep := none
    rep_i := 0
    visited := false
    isurf := -1
    isBnd := false }

/-- C7 counterexample: the descent sequences `2,0,...,0` and `0,0,...,0`
(22 steps each, son codes in 0..7) are distinct but produce the same
64-bit `sub_idx` value — the first step's bits are shifted out of the
`uint64_t`. -/
theorem claim_C7_counterexample :
    (2 :: List.replicate 21 0) ≠ (0 :: List.replicate 21 0)
    ∧ (pushSeq c7St 0 (2 :: List.replicate 21 0) false).sub_idx.getD 0 0
      = (pushSeq c7St 0 (0 :: List.replicate 21 0) false).sub_idx.getD 0 0 := by
  exact ⟨by decide, by decide⟩

/-- Witness: the amended C7 applied at a concrete input. -/
theorem claim_C7_witness :
    (c7St.push_transform 5 0 false).sub_idx.getD 0 0
      = (c7St.sub_idx.getD 0 0 * 8 + 5 + 1) % U64
    ∧ ([2, 0] : List Nat) = [2, 0] := by
  refine ⟨claim_C7.1 c7St 5 0 false (by decide), ?_⟩
  exact claim_C7.2 c7St 0 false [2, 0] [2, 0] (by decide) (by decide)
    (by decide) (by decide) (by decide) (by decide) (by decide)

/-! ### Generic `Except` fold lemmas -/

theorem except_bind_error {α β : Type} (m : String) (g : α → Except String β) :
    (Except.error m >>= g) = Except.error m := rfl

theorem except_bind_ok {α β : Type} (a : α) (g : α → Except String β) :
    (Except.ok a >>= g) = g a := rfl

theorem foldlM_error {α β : Type} (P : String → Prop)
    (f : β → α → Except String β)
    (hf : ∀ b a m, f b a = Except.error m → P m) :
    ∀ (l : List α) (b : β) (m : String),
      List.foldlM f b l = Except.error m → P m := by
  intro l
  induction l with
  | nil => intro b m h; exact Except.noConfusion h
  | cons a l ih =>
    intro b m h
    rw [List.foldlM_cons] at h
    cases hfa : f b a with
    | error m2 =>
      rw [hfa, except_bind_error] at h
      cases h
      exact hf b a m hfa
    | ok b2 =>
      rw [hfa, except_bind_ok] at h
      exact ih b2 m h

theorem foldlM_ok_inv {α β : Type} (Q : β → Prop)
    (f : β → α → Except String β)
    (hf : ∀ b a b2, Q b → f b a = Except.ok b2 → Q b2) :
    ∀ (l : List α) (b b2 : β), Q b →
      List.foldlM f b l = Except.ok b2 → Q b2 := by
  intro l
  induction l with
  | nil =>
    intro b b2 hb h
    simp only [List.foldlM] at h
    cases h
    exact hb
  | cons a l ih =>
    intro b b2 hb h
    rw [List.foldlM_cons] at h
    cases hfa : f b a with
    | error m2 => rw [hfa, except_bind_error] at h; cases h
    | ok bmid =>
      rw [hfa, except_bind_ok] at h
      exact ih bmid b2 (hf b a bmid hb hfa) h

/-- A unit-state fold whose body throws `msg` exactly on elements
satisfying `Q` throws as soon as some element satisfies `Q`. -/
theorem foldlM_unit_if_error {α : Type} (msg : String) (Q : α → Prop)
    [DecidablePred Q] :
    ∀ (l : List α) (a : α), a ∈ l → Q a →
      List.foldlM
        (fun (_ : Unit) x => if Q x then Except.error msg else Except.ok ())
        () l = Except.error msg := by
  intro l
  induction l with
  | nil => intro a ha _; cases ha
  | cons b l ih =>
    intro a ha hQ
    rw [List.foldlM_cons]
    by_cases hb : Q b
    · rw [if_pos hb, except_bind_error]
    · rw [if_neg hb, except_bind_ok]
      rcases List.mem_cons.mp ha with rfl | ha2
      · exact absurd hQ hb
      · exact ih a ha2 hQ

/-- A unit-state fold whose body can only throw `msg` throws once some
element makes the body throw. -/
theorem foldlM_unit_error {α : Type} (msg : String)
    (f : Unit → α → Except String Unit)
    (herr : ∀ a m, f () a = Except.error m → m = msg) :
    ∀ (l : List α) (a : α), a ∈ l → f () a = Except.error msg →
      List.foldlM f () l = Except.error msg := by
  intro l
  induction l with
  | nil => intro a ha _; cases ha
  | cons b l ih =>
    intro a ha hfa
    rw [List.foldlM_cons]
    cases hfb : f () b with
    | error m2 =>
      rw [except_bind_error, herr b m2 hfb]
    | ok u =>
      cases u
      rw [except_bind_ok]
      rcases List.mem_cons.mp ha with rfl | ha2
      · rw [hfa] at hfb; cases hfb
      · exact ih a ha2 hfa

/-! ### C5: stack capacity -/

def tData (n : Nat) : EData :=
  ⟨n, true, true, true, true, true, true, false, false, false, false, 1⟩

/-- A triangle chain refined along son 3.  The traversal descends son 3
first, with the other three sons still on the stack, so every level of
the chain occupies four more stack slots: expanding the level-63 node
(at stack index 252) pushes at index 256 and overflows the capacity-256
stack fixed by `Traverse::begin`. -/
def chainT : Nat → Elem
  | 0 => Elem.act (tData 0)
  | k + 1 =>
    Elem.tri4 (tData (k + 1)) (Elem.act (tData 0)) (Elem.act (tData 0))
      (Elem.act (tData 0)) (chainT k)

set_option maxRecDepth 8000 in
/-- C5: `Traverse::begin` fixes the stack capacity at 256; `push_state`
throws exactly when the top index has reached the capacity and succeeds
otherwise; a traversal deep enough to push at index 256 aborts as a
whole with the stack-overflow exception and delivers no states (the
`Except` result carries no partial list), while the same chain one
level shorter stays within capacity and returns its 190 leaves. -/
theorem claim_C5 :
    (∀ n : Nat, (Traverse.begin n).size = 256 ∧ (Traverse.begin n).top = 0)
    ∧ (∀ top size : Nat,
        (push_state_check top size = Except.error overflowMsg ↔ size ≤ top)
        ∧ (push_state_check top size = Except.ok (top + 1) ↔ top < size))
    ∧ get_states [⟨[chainT 64]⟩] 1 = Except.error overflowMsg
    ∧ Except.map List.length (get_states_list [⟨[chainT 63]⟩] 1)
        = Except.ok 190 := by
  refine ⟨fun n => ⟨rfl, rfl⟩, fun top size => ⟨?_, ?_⟩, by rfl, by rfl⟩
  · constructor
    · intro h
      by_contra hc
      rw [push_state_check, if_neg hc] at h
      cases h
    · intro h
      rw [push_state_check, if_pos h]
  · constructor
    · intro h
      by_contra hc
      rw [push_state_check, if_pos (Nat.le_of_not_lt hc)] at h
      cases h
    · intro h
      rw [push_state_check, if_neg (Nat.not_le_of_lt h)]

/-! ### C3: base-element-count compatibility -/

/-- One base element. -/
def mA : Mesh := ⟨[Elem.act (tData 1)]⟩

/-- Two base elements. -/
def mB : Mesh := ⟨[Elem.act (tData 2), Elem.act (tData 3)]⟩

/-- C3 (amended): `testMeshesCompliance` accepts exactly the mesh lists
whose base-element counts all match the first mesh's, and
`construct_union_mesh` propagates its rejection before producing any
union data; `Traverse::get_states` performs no such check (see
`claim_C3_counterexample`). -/
theorem claim_C3 :
    (∀ (m0 : Mesh) (rest : List Mesh),
      (testMeshesCompliance (m0 :: rest) = Except.ok ()
        ↔ ∀ m ∈ rest, m.get_num_base_elements = m0.get_num_base_elements)
      ∧ (testMeshesCompliance (m0 :: rest) = Except.error complianceMsg
        ↔ ¬ ∀ m ∈ rest, m.get_num_base_elements = m0.get_num_base_elements))
    ∧ (∀ (ms : List Mesh) (m : String),
        testMeshesCompliance ms = Except.error m →
        construct_union_mesh ms = Except.error m) := by
  constructor
  · intro m0 rest
    constructor
    · constructor
      · intro h
        by_contra hc
        rw [testMeshesCompliance, if_neg (by simpa using hc)] at h
        cases h
      · intro h
        rw [testMeshesCompliance, if_pos (by simpa using h)]
    · constructor
      · intro h hc
        rw [testMeshesCompliance, if_pos (by simpa using hc)] at h
        cases h
      · intro h
        rw [testMeshesCompliance, if_neg (by simpa using h)]
  · intro ms m h
    rw [construct_union_mesh, h]

/-- C3 counterexample: two meshes whose base-element counts differ (1
versus 2), yet `get_states` traverses them without any exception and
returns one leaf state — the compatibility check is not invoked by the
traversal, contradicting the claim for `get_states`. -/
theorem claim_C3_counterexample :
    mA.get_num_base_elements ≠ mB.get_num_base_elements
    ∧ Except.map List.length (get_states_list [mA, mB] 2) = Except.ok 1 :=
  ⟨by decide, by rfl⟩

/-- Witness for C3 at a concrete input. -/
theorem claim_C3_witness :
    construct_union_mesh [mA, mB] = Except.error complianceMsg :=
  claim_C3.2 [mA, mB] complianceMsg (by rfl)

/-! ### C4: the element-area distortion check -/

def mArea (n : Nat) (a : ℚ) : Mesh :=
  ⟨[Elem.act ⟨n, true, false, true, true, true, true,
      false, false, false, false, a⟩]⟩

/-- Helper: the rejection direction of `testMeshesQuality`. -/
theorem quality_rejects (m0 : Mesh) (rest : List Mesh) (mv : Mesh)
    (ke : Nat × Elem) (hmin : ¬ qualMin m0 < 0) (hmv : mv ∈ rest)
    (hke : ke ∈ mv.elems.enum) (hviol : qualViol m0 ke) :
    testMeshesQuality (m0 :: rest) = Except.error distortedMsg := by
  have hinner : ∀ (m : Mesh) (mm : String),
      List.foldlM (fun (_ : Unit) ke =>
        if qualViol m0 ke then Except.error distortedMsg else Except.ok ())
        () m.elems.enum = Except.error mm → mm = distortedMsg := by
    intro m mm h
    refine foldlM_error (· = distortedMsg) _ ?_ m.elems.enum () mm h
    intro b a m2 hba
    split at hba
    · cases hba; rfl
    · cases hba
  show (if qualMin m0 < 0 then Except.error valueExcMsg
    else List.foldlM _ () rest) = Except.error distortedMsg
  rw [if_neg hmin]
  exact foldlM_unit_error distortedMsg _ (fun m mm h => hinner m mm h)
    rest mv hmv
    (foldlM_unit_if_error distortedMsg (qualViol m0) mv.elems.enum ke hke hviol)

/-- C4 (amended): `testMeshesQuality` does reject every mesh collection
in which a used base element of a later mesh differs in area from the
first mesh's corresponding base element by more than `qualMin / 100`
(when the recorded area exceeds `HermesSqrtEpsilon` and the minimum is
not negative) — but the check is dead code: neither `get_states` nor
`construct_union_mesh` invokes it, so such collections are traversed
normally (see `claim_C4_counterexample`). -/
theorem claim_C4 :
    ∀ (m0 : Mesh) (rest : List Mesh) (mv : Mesh) (ke : Nat × Elem),
      ¬ qualMin m0 < 0 →
      mv ∈ rest → ke ∈ mv.elems.enum → qualViol m0 ke →
      testMeshesQuality (m0 :: rest) = Except.error distortedMsg :=
  fun m0 rest mv ke hmin hmv hke hviol =>
    quality_rejects m0 rest mv ke hmin hmv hke hviol

/-- C4 counterexample: two single-quad meshes with base element areas 1
and 100.  The area condition of the claim holds (the source's own
`testMeshesQuality` rejects the pair), yet `get_states` emits one leaf
state without any exception and `construct_union_mesh` builds union
data without any exception: the traversal performs no area check. -/
theorem claim_C4_counterexample :
    testMeshesQuality [mArea 1 1, mArea 2 100] = Except.error distortedMsg
    ∧ Except.map List.length (get_states_list [mArea 1 1, mArea 2 100] 2)
        = Except.ok 1
    ∧ Except.map (fun c => c.udsize)
        (construct_union_mesh [mArea 1 1, mArea 2 100]) = Except.ok 1024 := by
  refine ⟨?_, by rfl, by rfl⟩
  refine quality_rejects (mArea 1 1) [mArea 2 100] (mArea 2 100)
    (0, Elem.act ⟨2, true, false, true, true, true, true,
      false, false, false, false, 100⟩)
    ?_ (by decide) (by decide) ?_
  · norm_num [qualMin, mArea, Elem.used, Elem.data]
  · norm_num [qualViol, qualAreas, qualMin, fabs, HermesSqrtEpsilon, mArea,
      Elem.used, Elem.data]

/-- Witness for C4 at a concrete input. -/
theorem claim_C4_witness :
    testMeshesQuality [mArea 3 1, mArea 4 200] = Except.error distortedMsg :=
  claim_C4 (mArea 3 1) [mArea 4 200] (mArea 4 200)
    (0, Elem.act ⟨4, true, false, true, true, true, true,
      false, false, false, false, 200⟩)
    (by norm_num [qualMin, mArea, Elem.used, Elem.data]) (by decide) (by decide)
    (by norm_num [qualViol, qualAreas, qualMin, fabs, HermesSqrtEpsilon, mArea,
      Elem.used, Elem.data])

/-! ### C8: the union-recursion leaf case -/

theorem growLoop_ge (id : Nat) : ∀ (fuel u : Nat), u ≤ growLoop id fuel u := by
  intro fuel
  induction fuel with
  | zero => intro u; exact Nat.le_refl u
  | succ fuel ih =>
    intro u
    rw [growLoop]
    split
    · exact Nat.le_trans (by omega) (ih (2 * u))
    · exact Nat.le_refl u

theorem growLoop_gt (id : Nat) :
    ∀ (fuel u : Nat), 0 < u → id < fuel + u → id < growLoop id fuel u := by
  intro fuel
  induction fuel with
  | zero =>
    intro u _ h
    simpa [growLoop] using h
  | succ fuel ih =>
    intro u hu h
    rw [growLoop]
    split
    · exact ih (2 * u) (by omega) (by omega)
    · omega

theorem growLoop_pow (id : Nat) :
    ∀ (fuel u : Nat), ∃ k, growLoop id fuel u = u * 2 ^ k := by
  intro fuel
  induction fuel with
  | zero => intro u; exact ⟨0, by simp [growLoop]⟩
  | succ fuel ih =>
    intro u
    rw [growLoop]
    split
    · obtain ⟨k, hk⟩ := ih (2 * u)
      exact ⟨k + 1, by rw [hk]; ring⟩
    · exact ⟨0, by simp⟩

theorem udGrow_gt (u id : Nat) : id < udGrow u id := by
  rw [udGrow]
  split
  · apply growLoop_gt
    · split <;> omega
    · split <;> omega
  · omega

theorem udGrow_ge (u id : Nat) : u ≤ udGrow u id := by
  rw [udGrow]
  split
  · refine Nat.le_trans ?_ (growLoop_ge id (id + 1) _)
    split <;> omega
  · exact Nat.le_refl u

theorem udGrow_zero_pow (id : Nat) : ∃ k, udGrow 0 id = 1024 * 2 ^ k := by
  rw [udGrow, if_pos (Nat.zero_le id)]
  simpa using growLoop_pow id (id + 1) 1024

/-- C8: whenever every source element is simultaneously active,
`union_recurrent` bottoms out: it performs no refinement (the fresh-id
counter is unchanged), grows the tables exactly by the `udGrow` rule —
geometric from 1024 when the table was empty — to a capacity strictly
beyond `uni.id`, and records `(e[i], idx[i])` for every mesh at index
`uni.id`, which lies strictly inside the grown table (never out of
bounds). -/
theorem claim_C8 :
    ∀ (num fuel : Nat) (cr : Rect) (e : List Elem) (er : List Rect)
      (idx : List Nat) (uni : UniNode) (ctx : UniCtx),
      (∀ i, i < num → (e.getD i junkElem).active = true) →
      (∀ t ∈ ctx.unidata, t.length = ctx.udsize) →
      num ≤ ctx.unidata.length →
      ∃ ctx2,
        union_recurrent num (fuel + 1) cr e er idx uni ctx = Except.ok ctx2
        ∧ ctx2.nextId = ctx.nextId
        ∧ ctx2.udsize = udGrow ctx.udsize uni.id
        ∧ uni.id < ctx2.udsize
        ∧ (ctx.udsize = 0 → ∃ k, ctx2.udsize = 1024 * 2 ^ k)
        ∧ (∀ i, i < num →
            uni.id < (ctx2.unidata.getD i []).length
            ∧ (ctx2.unidata.getD i []).getD uni.id none
                = some (e.getD i junkElem, idx.getD i 0)) := by
  intro num fuel cr e er idx uni ctx hact htab hlen
  have hall : ((List.range num).all
      fun i => (e.getD i junkElem).active) = true := by
    rw [List.all_eq_true]
    intro i hi
    exact hact i (List.mem_range.mp hi)
  have hudgt : uni.id < udGrow ctx.udsize uni.id := udGrow_gt _ _
  have hudge : ctx.udsize ≤ udGrow ctx.udsize uni.id := udGrow_ge _ _
  have htabs_len : ∀ i, i < num →
      ((if ctx.udsize ≤ uni.id then
          ctx.unidata.map fun t =>
            t ++ List.replicate (udGrow ctx.udsize uni.id - t.length) none
        else ctx.unidata).getD i []).length
        = udGrow ctx.udsize uni.id := by
    intro i hi
    have hilen : i < ctx.unidata.length := Nat.lt_of_lt_of_le hi hlen
    have hmem : ctx.unidata.getD i [] ∈ ctx.unidata := by
      rw [List.getD_eq_getElem?_getD, List.getElem?_eq_getElem hilen,
        Option.getD_some]
      exact List.getElem_mem hilen
    have hti := htab _ hmem
    split
    · rw [getD_map_lt _ _ _ _ [] hilen]
      rw [List.length_append, List.length_replicate, hti]
      omega
    · rename_i hng
      rw [hti, udGrow, if_neg hng]
  have hrun : union_recurrent num (fuel + 1) cr e er idx uni ctx
      = Except.ok (uniLeafResult num e idx uni ctx) := by
    simp only [union_recurrent, hall, if_true]
  refine ⟨uniLeafResult num e idx uni ctx, hrun, rfl, rfl, hudgt, ?_, ?_⟩
  · intro h0
    simp only [uniLeafResult]
    rw [h0]
    exact udGrow_zero_pow uni.id
  · intro i hi
    simp only [uniLeafResult]
    rw [getD_range_map _ _ _ _ hi]
    constructor
    · rw [List.length_set, htabs_len i hi]
      exact hudgt
    · exact getD_set_self _ _ _ _ (by rw [htabs_len i hi]; exact hudgt)

/-- Witness for C8 at a concrete input: one mesh whose element is
active, an empty table of capacity 0, union leaf id 0. -/
theorem claim_C8_witness :
    ∃ ctx2,
      union_recurrent 1 1 H2D_UNITY [Elem.act (tData 9)] [H2D_UNITY] [5]
          ⟨0, true⟩ ⟨0, [[]], 7⟩ = Except.ok ctx2
      ∧ ctx2.nextId = (⟨0, [[]], 7⟩ : UniCtx).nextId
      ∧ ctx2.udsize = udGrow 0 0
      ∧ (0 : Nat) < ctx2.udsize
      ∧ ((⟨0, [[]], 7⟩ : UniCtx).udsize = 0 →
          ∃ k, ctx2.udsize = 1024 * 2 ^ k)
      ∧ (∀ i, i < 1 →
          0 < (ctx2.unidata.getD i []).length
          ∧ (ctx2.unidata.getD i []).getD 0 none
              = some (([Elem.act (tData 9)] : List Elem).getD i junkElem,
                  ([5] : List Nat).getD i 0)) :=
  claim_C8 1 0 H2D_UNITY [Elem.act (tData 9)] [H2D_UNITY] [5]
    ⟨0, true⟩ ⟨0, [[]], 7⟩ (by decide) (by decide) (by decide)

/-! ### Infrastructure for the traversal-wide theorems (C1, C2, C6, C9) -/

theorem push_transform_fields (s : St) (son i : Nat) (tri : Bool) :
    (s.push_transform son i tri).e = s.e
    ∧ (s.push_transform son i tri).num = s.num
    ∧ (s.push_transform son i tri).cr = s.cr
    ∧ (s.push_transform son i tri).er = s.er := by
  unfold St.push_transform
  split
  · split
    · split <;> exact ⟨rfl, rfl, rfl, rfl⟩
    · exact ⟨rfl, rfl, rfl, rfl⟩
  · exact ⟨rfl, rfl, rfl, rfl⟩

theorem pushFold_fields (i : Nat) (sons : List Nat) :
    ∀ s : St,
      (sons.foldl (fun st son => st.push_transform son i st.is_triangle) s).e
          = s.e
      ∧ (sons.foldl (fun st son => st.push_transform son i st.is_triangle) s).num
          = s.num
      ∧ (sons.foldl (fun st son => st.push_transform son i st.is_triangle) s).cr
          = s.cr
      ∧ (sons.foldl (fun st son => st.push_transform son i st.is_triangle) s).er
          = s.er := by
  induction sons with
  | nil => intro s; exact ⟨rfl, rfl, rfl, rfl⟩
  | cons son rest ih =>
    intro s
    have h1 := push_transform_fields s son i s.is_triangle
    have h2 := ih (s.push_transform son i s.is_triangle)
    simp only [List.foldl_cons]
    exact ⟨h2.1.trans h1.1, h2.2.1.trans h1.2.1,
      h2.2.2.1.trans h1.2.2.1, h2.2.2.2.trans h1.2.2.2⟩

theorem init_transforms_fields (s : St) (i : Nat) (st2 : St)
    (h : init_transforms s i = some st2) :
    st2.e = s.e ∧ st2.num = s.num ∧ st2.cr = s.cr ∧ st2.er = s.er := by
  unfold init_transforms at h
  cases hit : itLoop s.cr 128 (s.er.getD i H2D_UNITY) with
  | none => rw [hit] at h; cases h
  | some pr =>
    rw [hit] at h
    cases h
    exact pushFold_fields i pr.1 s

theorem initStep_fields (s st2 : St) (h : initStep s = Except.ok st2) :
    st2.e = s.e ∧ st2.num = s.num ∧ st2.cr = s.cr ∧ st2.er = s.er := by
  refine foldlM_ok_inv
    (fun st => st.e = s.e ∧ st.num = s.num ∧ st.cr = s.cr ∧ st.er = s.er)
    _ ?_ (List.range s.num) s st2 ⟨rfl, rfl, rfl, rfl⟩ h
  intro b a b2 hQ hstep
  split at hstep
  · cases hstep; exact hQ
  · split at hstep
    · cases hin : init_transforms b a with
      | none => rw [hin] at hstep; cases hstep
      | some st3 =>
        rw [hin] at hstep
        have hf := init_transforms_fields b a st3 hin
        cases hstep
        exact ⟨hf.1.trans hQ.1, hf.2.1.trans hQ.2.1,
          hf.2.2.1.trans hQ.2.2.1, hf.2.2.2.trans hQ.2.2.2⟩
    · cases hstep; exact hQ

theorem set_boundary_info_fields (s : St) :
    (set_boundary_info s).e = s.e
    ∧ (set_boundary_info s).num = s.num
    ∧ (set_boundary_info s).rep = s.rep
    ∧ (set_boundary_info s).rep_i = s.rep_i
    ∧ (set_boundary_info s).sub_idx = s.sub_idx
    ∧ (set_boundary_info s).visited = s.visited := by
  unfold set_boundary_info
  split
  · exact ⟨rfl, rfl, rfl, rfl, rfl, rfl⟩
  · split <;> exact ⟨rfl, rfl, rfl, rfl, rfl, rfl⟩

theorem repStep_fields (st : St) (j : Nat) :
    (repStep st j).e = st.e
    ∧ (repStep st j).num = st.num
    ∧ (repStep st j).sub_idx = st.sub_idx
    ∧ (repStep st j).bnd = st.bnd
    ∧ (repStep st j).visited = st.visited
    ∧ (repStep st j).isurf = st.isurf
    ∧ (repStep st j).isBnd = st.isBnd := by
  unfold repStep
  split
  · split <;> exact ⟨rfl, rfl, rfl, rfl, rfl, rfl, rfl⟩
  · exact ⟨rfl, rfl, rfl, rfl, rfl, rfl, rfl⟩

theorem repFold_fields : ∀ (l : List Nat) (st : St),
    (l.foldl repStep st).e = st.e
    ∧ (l.foldl repStep st).num = st.num
    ∧ (l.foldl repStep st).sub_idx = st.sub_idx
    ∧ (l.foldl repStep st).bnd = st.bnd
    ∧ (l.foldl repStep st).visited = st.visited
    ∧ (l.foldl repStep st).isurf = st.isurf
    ∧ (l.foldl repStep st).isBnd = st.isBnd := by
  intro l
  induction l with
  | nil => intro st; exact ⟨rfl, rfl, rfl, rfl, rfl, rfl, rfl⟩
  | cons j rest ih =>
    intro st
    have h1 := repStep_fields st j
    have h2 := ih (repStep st j)
    simp only [List.foldl_cons]
    exact ⟨h2.1.trans h1.1, h2.2.1.trans h1.2.1, h2.2.2.1.trans h1.2.2.1,
      h2.2.2.2.1.trans h1.2.2.2.1, h2.2.2.2.2.1.trans h1.2.2.2.2.1,
      h2.2.2.2.2.2.1.trans h1.2.2.2.2.2.1, h2.2.2.2.2.2.2.trans h1.2.2.2.2.2.2⟩

theorem repAssign_fields (sp : Nat) (s : St) :
    (repAssign sp s).e = s.e
    ∧ (repAssign sp s).num = s.num
    ∧ (repAssign sp s).sub_idx = s.sub_idx
    ∧ (repAssign sp s).bnd = s.bnd
    ∧ (repAssign sp s).visited = s.visited := by
  have := repFold_fields (List.range sp) { s with rep := none }
  exact ⟨this.1, this.2.1, this.2.2.1, this.2.2.2.1, this.2.2.2.2.1⟩

theorem advanceE_length (num : Nat) (es : List (Option Elem))
    (f : Nat → Elem → Elem) : (advanceE num es f).length = num := by
  simp [advanceE]

/-- The leaf test as a logical statement about the state's elements. -/
theorem leafCheckB_iff (s : St) :
    leafCheckB s = true ↔
      ∀ i, i < s.num → ∀ el, s.e.getD i none = some el →
        el.used = true → el.active = true := by
  rw [leafCheckB, List.all_eq_true]
  constructor
  · intro h i hi el hel hu
    have h2 := h i (List.mem_range.mpr hi)
    rw [hel] at h2
    simp only [Bool.or_eq_true, Bool.not_eq_true'] at h2
    rcases h2 with h2 | h2
    · rw [hu] at h2; cases h2
    · exact h2
  · intro h i hi
    cases hel : s.e.getD i none with
    | none => rfl
    | some el =>
      by_cases hu : el.used = true
      · simp [h i (List.mem_range.mp hi) el hel hu]
      · simp only [Bool.or_eq_true, Bool.not_eq_true']
        cases hue : el.used with
        | false => exact Or.inl rfl
        | true => exact absurd hue hu

/-- Mesh `j` contributes a used element to the state's element array. -/
def usedAtE (es : List (Option Elem)) (j : Nat) : Prop :=
  ∃ el, es.getD j none = some el ∧ el.used = true

theorem repStep_of_used (st : St) (j : Nat) (el : Elem)
    (hel : st.e.getD j none = some el) (hu : el.used = true) :
    repStep st j = { st with rep := some el, rep_i := j } := by
  unfold repStep
  rw [hel]
  show (if el.used = true then { st with rep := some el, rep_i := j } else st)
    = { st with rep := some el, rep_i := j }
  rw [if_pos hu]

theorem repStep_of_not_used (st : St) (j : Nat)
    (h : ¬ usedAtE st.e j) : repStep st j = st := by
  unfold repStep
  cases hel : st.e.getD j none with
  | none => rfl
  | some el =>
    show (if el.used = true then { st with rep := some el, rep_i := j }
      else st) = st
    rw [if_neg fun hu => h ⟨el, hel, hu⟩]

theorem repFold_rep_last : ∀ (n : Nat) (st : St) (j : Nat) (el : Elem),
    j < n → st.e.getD j none = some el → el.used = true →
    (∀ j2, j < j2 → j2 < n → ¬ usedAtE st.e j2) →
    ((List.range n).foldl repStep st).rep = some el
    ∧ ((List.range n).foldl repStep st).rep_i = j := by
  intro n
  induction n with
  | zero => intro st j el hj _ _ _; omega
  | succ n ih =>
    intro st j el hj hel hu hmax
    rw [List.range_succ, List.foldl_append, List.foldl_cons, List.foldl_nil]
    have hFe : ((List.range n).foldl repStep st).e = st.e :=
      (repFold_fields _ st).1
    by_cases hjn : j = n
    · subst hjn
      rw [repStep_of_used _ _ el (by rw [hFe]; exact hel) hu]
      exact ⟨rfl, rfl⟩
    · have hjlt : j < n := by omega
      have ihres := ih st j el hjlt hel hu
        (fun j2 h1 h2 => hmax j2 h1 (by omega))
      have hnotn : ¬ usedAtE st.e n := hmax n hjlt (Nat.lt_succ_self n)
      rw [repStep_of_not_used _ _ (by rw [hFe]; exact hnotn)]
      exact ihres

theorem repFold_isSome : ∀ (n : Nat) (st : St),
    ((List.range n).foldl repStep st).rep.isSome = true
      ↔ (st.rep.isSome = true ∨ ∃ j, j < n ∧ usedAtE st.e j) := by
  intro n
  induction n with
  | zero =>
    intro st
    simp only [List.range_zero, List.foldl_nil]
    constructor
    · intro h; exact Or.inl h
    · rintro (h | ⟨j, hj, _⟩)
      · exact h
      · omega
  | succ n ih =>
    intro st
    rw [List.range_succ, List.foldl_append, List.foldl_cons, List.foldl_nil]
    have hFe : ((List.range n).foldl repStep st).e = st.e :=
      (repFold_fields _ st).1
    cases hel : st.e.getD n none with
    | none =>
      rw [repStep_of_not_used _ _
        (by rw [hFe]; rintro ⟨el, hel2, _⟩; rw [hel] at hel2; cases hel2)]
      rw [ih st]
      constructor
      · rintro (h | ⟨j, hj, hu⟩)
        · exact Or.inl h
        · exact Or.inr ⟨j, by omega, hu⟩
      · rintro (h | ⟨j, hj, hu⟩)
        · exact Or.inl h
        · rcases Nat.lt_succ_iff_lt_or_eq.mp hj with h2 | h2
          · exact Or.inr ⟨j, h2, hu⟩
          · subst h2
            obtain ⟨el, hel2, _⟩ := hu
            rw [hel] at hel2
            cases hel2
    | some el =>
      by_cases hu : el.used = true
      · rw [repStep_of_used _ _ el (by rw [hFe]; exact hel) hu]
        simp only [Option.isSome_some]
        constructor
        · intro _; exact Or.inr ⟨n, Nat.lt_succ_self n, el, hel, hu⟩
        · intro _; trivial
      · rw [repStep_of_not_used _ _
          (by rw [hFe]
              rintro ⟨el2, hel2, hu3⟩
              rw [hel] at hel2
              cases hel2
              exact hu hu3)]
        rw [ih st]
        constructor
        · rintro (h | ⟨j, hj, hu2⟩)
          · exact Or.inl h
          · exact Or.inr ⟨j, by omega, hu2⟩
        · rintro (h | ⟨j, hj, hu2⟩)
          · exact Or.inl h
          · rcases Nat.lt_succ_iff_lt_or_eq.mp hj with h2 | h2
            · exact Or.inr ⟨j, h2, hu2⟩
            · subst h2
              obtain ⟨el2, hel2, hu3⟩ := hu2
              rw [hel] at hel2
              cases hel2
              exact absurd hu3 hu

theorem repAssign_rep_isSome (sp : Nat) (s : St) :
    (repAssign sp s).rep.isSome = true ↔ ∃ j, j < sp ∧ usedAtE s.e j := by
  unfold repAssign
  rw [repFold_isSome sp { s with rep := none }]
  simp

theorem repAssign_last (sp : Nat) (s : St) (j : Nat) (el : Elem)
    (hj : j < sp) (hel : s.e.getD j none = some el) (hu : el.used = true)
    (hmax : ∀ j2, j < j2 → j2 < sp → ¬ usedAtE s.e j2) :
    (repAssign sp s).rep = some el ∧ (repAssign sp s).rep_i = j :=
  repFold_rep_last sp { s with rep := none } j el hj hel hu hmax

theorem exists_last_usedAt : ∀ (sp : Nat) (es : List (Option Elem)),
    (∃ j, j < sp ∧ usedAtE es j) →
    ∃ j, j < sp ∧ usedAtE es j
      ∧ ∀ j2, j < j2 → j2 < sp → ¬ usedAtE es j2 := by
  intro sp
  induction sp with
  | zero =>
    rintro es ⟨j, hj, _⟩
    omega
  | succ sp ih =>
    rintro es ⟨j, hj, hu⟩
    by_cases hn : usedAtE es sp
    · exact ⟨sp, Nat.lt_succ_self sp, hn, fun j2 h1 h2 => by omega⟩
    · have hjlt : j < sp := by
        rcases Nat.lt_succ_iff_lt_or_eq.mp hj with h | h
        · exact h
        · subst h; exact absurd hu hn
      obtain ⟨j3, h3, hu3, hmax3⟩ := ih es ⟨j, hjlt, hu⟩
      refine ⟨j3, by omega, hu3, fun j2 h1 h2 => ?_⟩
      rcases Nat.lt_succ_iff_lt_or_eq.mp h2 with h4 | h4
      · exact hmax3 j2 h1 h4
      · subst h4; exact hn

/-- The emitted states determined by a processing trace: clones of the
flagged snapshots after boundary-info and representative assignment. -/
def emFromTr (sp : Nat) (tr : List (St × Bool)) : List St :=
  (tr.filter fun q => q.2).map
    fun q => (repAssign sp (set_boundary_info q.1)).clone

theorem emFromTr_append (sp : Nat) (a b : List (St × Bool)) :
    emFromTr sp (a ++ b) = emFromTr sp a ++ emFromTr sp b := by
  simp [emFromTr, List.filter_append]

theorem emFromTr_cons_false (sp : Nat) (q : St × Bool) (t : List (St × Bool))
    (h : q.2 = false) : emFromTr sp (q :: t) = emFromTr sp t := by
  simp [emFromTr, h]

theorem mkSonTri_len (s : St) (son : Nat) :
    (mkSonTri s son).e.length = (mkSonTri s son).num := by
  simp [mkSonTri, advanceE_length]

theorem mkSonQ3_len (s : St) (cs : Nat → I4) (son : Nat) :
    (mkSonQ3 s cs son).e.length = (mkSonQ3 s cs son).num := by
  simp [mkSonQ3, advanceE_length]

theorem mkSonQ2_len (s : St) (cs : Nat → I4) (son j : Nat) :
    (mkSonQ2 s cs son j).e.length = (mkSonQ2 s cs son j).num := by
  simp [mkSonQ2, advanceE_length]

theorem mkSonQ0_len (s : St) (cs : Nat → I4) :
    (mkSonQ0 s cs).e.length = (mkSonQ0 s cs).num := by
  simp [mkSonQ0, advanceE_length]

/-- The per-trace-entry property established by `processState_spec`:
every processed state keeps its element array sized to `num`, and its
emission flag holds exactly when the leaf test passes and the
representative scan finds a used element among the first `sp` meshes. -/
def trProp (sp : Nat) (q : St × Bool) : Prop :=
  q.1.e.length = q.1.num
  ∧ (q.2 = true ↔ (leafCheckB q.1 = true
      ∧ (repAssign sp (set_boundary_info q.1)).rep.isSome = true))

/-- The spine of the traversal-wide claims: a successful `processState`
run emits exactly the clones of its flagged trace snapshots (after
boundary info and representative assignment), and every trace entry
satisfies `trProp`. -/
theorem processState_spec (sp size : Nat) :
    ∀ (fuel p : Nat) (s : St) (res : List St × List (St × Bool)),
      s.e.length = s.num →
      processState sp size fuel p s = Except.ok res →
      res.1 = emFromTr sp res.2 ∧ ∀ q ∈ res.2, trProp sp q := by
  intro fuel
  induction fuel with
  | zero =>
    intro p s res _ h
    exact Except.noConfusion h
  | succ fuel ih =>
    intro p s res hlen h
    simp only [processState] at h
    split at h
    · cases h
    · rename_i s2 heqin
      have hf := initStep_fields _ _ heqin
      have hlen2 : s2.e.length = s2.num := by
        rw [hf.1, hf.2.1]; exact hlen
      split at h
      · rename_i hl
        split at h
        · rename_i hrep
          cases h
          refine ⟨by simp [emFromTr], ?_⟩
          intro q hq
          rcases List.mem_singleton.mp hq with rfl
          exact ⟨hlen2, by simp [hl, hrep]⟩
        · rename_i hrep
          cases h
          refine ⟨by simp [emFromTr], ?_⟩
          intro q hq
          rcases List.mem_singleton.mp hq with rfl
          exact ⟨hlen2, by simp [hrep]⟩
      · rename_i hl
        split at h
        · -- triangle branch
          split at h
          · cases h
          · split at h
            · cases h
            · rename_i r3 e3 t3 heq3
              split at h
              · cases h
              · rename_i r2 e2 t2 heq2
                split at h
                · cases h
                · rename_i r1 e1 t1 heq1
                  split at h
                  · cases h
                  · rename_i r0 e0 t0 heq0
                    cases h
                    have i3 := ih _ _ _ (mkSonTri_len s2 3) heq3
                    have i2 := ih _ _ _ (mkSonTri_len s2 2) heq2
                    have i1 := ih _ _ _ (mkSonTri_len s2 1) heq1
                    have i0 := ih _ _ _ (mkSonTri_len s2 0) heq0
                    refine ⟨?_, ?_⟩
                    · show e3 ++ e2 ++ e1 ++ e0
                        = emFromTr sp ((s2, false) :: (t3 ++ t2 ++ t1 ++ t0))
                      rw [emFromTr_cons_false sp (s2, false) _ rfl,
                        emFromTr_append, emFromTr_append, emFromTr_append,
                        ← i3.1, ← i2.1, ← i1.1, ← i0.1]
                    · intro q hq
                      rcases List.mem_cons.mp hq with rfl | hq2
                      · exact ⟨hlen2, by simp [hl]⟩
                      · rcases List.mem_append.mp hq2 with h4 | h4
                        · rcases List.mem_append.mp h4 with h5 | h5
                          · rcases List.mem_append.mp h5 with h6 | h6
                            · exact i3.2 q h6
                            · exact i2.2 q h6
                          · exact i1.2 q h5
                        · exact i0.2 q h4
        · -- quad branches
          split at h
          · -- split == 3
            split at h
            · cases h
            · split at h
              · cases h
              · rename_i r3 e3 t3 heq3
                split at h
                · cases h
                · rename_i r2 e2 t2 heq2
                  split at h
                  · cases h
                  · rename_i r1 e1 t1 heq1
                    split at h
                    · cases h
                    · rename_i r0 e0 t0 heq0
                      cases h
                      have i3 := ih _ _ _ (mkSonQ3_len s2 _ 3) heq3
                      have i2 := ih _ _ _ (mkSonQ3_len s2 _ 2) heq2
                      have i1 := ih _ _ _ (mkSonQ3_len s2 _ 1) heq1
                      have i0 := ih _ _ _ (mkSonQ3_len s2 _ 0) heq0
                      refine ⟨?_, ?_⟩
                      · show e3 ++ e2 ++ e1 ++ e0
                          = emFromTr sp
                              ((s2, false) :: (t3 ++ t2 ++ t1 ++ t0))
                        rw [emFromTr_cons_false sp (s2, false) _ rfl,
                          emFromTr_append, emFromTr_append, emFromTr_append,
                          ← i3.1, ← i2.1, ← i1.1, ← i0.1]
                      · intro q hq
                        rcases List.mem_cons.mp hq with rfl | hq2
                        · exact ⟨hlen2, by simp [hl]⟩
                        · rcases List.mem_append.mp hq2 with h4 | h4
                          · rcases List.mem_append.mp h4 with h5 | h5
                            · rcases List.mem_append.mp h5 with h6 | h6
                              · exact i3.2 q h6
                              · exact i2.2 q h6
                            · exact i1.2 q h5
                          · exact i0.2 q h4
          · split at h
            · -- split == 1 or 2
              split at h
              · cases h
              · split at h
                · cases h
                · rename_i rb eb tb heqb
                  split at h
                  · cases h
                  · rename_i ra ea ta heqa
                    cases h
                    have ib := ih _ _ _ (mkSonQ2_len s2 _ _ 2) heqb
                    have ia := ih _ _ _ (mkSonQ2_len s2 _ _ 0) heqa
                    refine ⟨?_, ?_⟩
                    · show eb ++ ea = emFromTr sp ((s2, false) :: (tb ++ ta))
                      rw [emFromTr_cons_false sp (s2, false) _ rfl,
                        emFromTr_append, ← ib.1, ← ia.1]
                    · intro q hq
                      rcases List.mem_cons.mp hq with rfl | hq2
                      · exact ⟨hlen2, by simp [hl]⟩
                      · rcases List.mem_append.mp hq2 with h4 | h4
                        · exact ib.2 q h4
                        · exact ia.2 q h4
            · -- no split
              split at h
              · cases h
              · split at h
                · cases h
                · rename_i r0 e0 t0 heq0
                  cases h
                  have i0 := ih _ _ _ (mkSonQ0_len s2 _) heq0
                  refine ⟨?_, ?_⟩
                  · show e0 = emFromTr sp ((s2, false) :: t0)
                    rw [emFromTr_cons_false sp (s2, false) _ rfl, ← i0.1]
                  · intro q hq
                    rcases List.mem_cons.mp hq with rfl | hq2
                    · exact ⟨hlen2, by simp [hl]⟩
                    · exact i0.2 q hq2

theorem baseState_len (ms : List Mesh) (num id : Nat) :
    (baseState ms num id).e.length = (baseState ms num id).num := by
  simp [baseState]

/-- Lift of `processState_spec` over the base-element loop. -/
theorem basesLoop_spec (ms : List Mesh) (sp num size : Nat) :
    ∀ (ids : List Nat) (acc res : List St × List (St × Bool)),
      acc.1 = emFromTr sp acc.2 →
      (∀ q ∈ acc.2, trProp sp q) →
      basesLoop ms sp num size ids acc = Except.ok res →
      res.1 = emFromTr sp res.2 ∧ ∀ q ∈ res.2, trProp sp q := by
  intro ids
  induction ids with
  | nil =>
    intro acc res h1 h2 h
    cases h
    exact ⟨h1, h2⟩
  | cons id rest ih =>
    intro acc res h1 h2 h
    simp only [basesLoop] at h
    split at h
    · split at h
      · cases h
      · split at h
        · cases h
        · rename_i r em tr heq
          have hp := processState_spec sp size _ 0 _ (em, tr)
            (baseState_len ms num id) heq
          refine ih _ res ?_ ?_ h
          · show acc.1 ++ em = emFromTr sp (acc.2 ++ tr)
            rw [emFromTr_append, h1]
            exact congrArg (fun x => emFromTr sp acc.2 ++ x) hp.1
          · intro q hq
            rcases List.mem_append.mp hq with h4 | h4
            · exact h2 q h4
            · exact hp.2 q h4
    · exact ih acc res h1 h2 h

theorem getD_some_lt {α : Type} (l : List (Option α)) (j : Nat) (x : α)
    (h : l.getD j none = some x) : j < l.length := by
  by_contra hc
  rw [List.getD_eq_getElem?_getD,
    List.getElem?_eq_none (Nat.le_of_not_lt hc)] at h
  cases h

/-- The element list of an emitted clone, in terms of the trace
snapshot it was taken from. -/
theorem clone_e_of_snapshot (sp : Nat) (q1 : St) :
    ((repAssign sp (set_boundary_info q1)).clone).e = q1.e.take q1.num := by
  show (repAssign sp (set_boundary_info q1)).e.take
      (repAssign sp (set_boundary_info q1)).num = _
  rw [(repAssign_fields _ _).1, (repAssign_fields _ _).2.1,
    (set_boundary_info_fields _).1, (set_boundary_info_fields _).2.1]

/-! ### C6: deep-cloned emission -/

/-- C6: `State::clone` copies the per-mesh arrays (the first `num`
entries) and the `bnd`, `rep`, `rep_i`, `visited`, `isurf`, `isBnd`
fields of its source, and every successful traversal's emitted list
consists exactly of clones of the flagged trace snapshots (after
boundary-info and representative assignment) — the emitted states are
value snapshots, unaffected by any later reuse of the traversal
stack. -/
theorem claim_C6 :
    (∀ other : St,
      (St.clone other).e = other.e.take other.num
      ∧ (St.clone other).sub_idx = other.sub_idx.take other.num
      ∧ (St.clone other).bnd = other.bnd
      ∧ (St.clone other).rep = other.rep
      ∧ (St.clone other).rep_i = other.rep_i
      ∧ (St.clone other).visited = other.visited
      ∧ (St.clone other).isurf = other.isurf
      ∧ (St.clone other).isBnd = other.isBnd
      ∧ (St.clone other).num = other.num)
    ∧ (∀ (ms : List Mesh) (sp : Nat) (res : List St × List (St × Bool)),
        get_states ms sp = Except.ok res →
        res.1 = emFromTr sp res.2) := by
  constructor
  · intro other
    exact ⟨rfl, rfl, rfl, rfl, rfl, rfl, rfl, rfl, rfl⟩
  · intro ms sp res h
    exact (basesLoop_spec ms sp ms.length 256 _ ([], []) res
      (by simp [emFromTr]) (by simp) h).1

/-- The concrete result of traversing the one-triangle mesh `mA`. -/
def gsResA : List St × List (St × Bool) :=
  match get_states [mA] 1 with
  | Except.ok r => r
  | Except.error _ => ([], [])

/-- Witness for C6 at a concrete input. -/
theorem claim_C6_witness : gsResA.1 = emFromTr 1 gsResA.2 :=
  claim_C6.2 [mA] 1 gsResA (by rfl)

/-! ### C1: the leaf-emission condition -/

/-- C1 (amended): in every successful traversal, every emitted state's
non-null used elements are all active (the forward direction of the
claim), and a processed state is emitted if and only if it passes the
leaf test AND some mesh among the first `spaces_size` has a non-null
used element there — the representative condition the original claim
omits (see `claim_C1_counterexample`). -/
theorem claim_C1 :
    ∀ (ms : List Mesh) (sp : Nat) (res : List St × List (St × Bool)),
      get_states ms sp = Except.ok res →
      (∀ s ∈ res.1, ∀ i (el : Elem), s.e.getD i none = some el →
        el.used = true → el.active = true)
      ∧ (∀ q ∈ res.2, (q.2 = true ↔
          ((∀ i, i < q.1.num → ∀ el, q.1.e.getD i none = some el →
              el.used = true → el.active = true)
            ∧ ∃ j, j < sp ∧ usedAtE q.1.e j))) := by
  intro ms sp res h
  have hb := basesLoop_spec ms sp ms.length 256 _ ([], []) res
    (by simp [emFromTr]) (by simp) h
  constructor
  · intro s hs i el hel hu
    rw [hb.1] at hs
    simp only [emFromTr, List.mem_map, List.mem_filter] at hs
    obtain ⟨q, ⟨hqmem, hqflag⟩, rfl⟩ := hs
    have hq := hb.2 q hqmem
    obtain ⟨hleaf, _⟩ := hq.2.mp hqflag
    rw [clone_e_of_snapshot sp q.1] at hel
    rw [← hq.1, List.take_length] at hel
    have hi : i < q.1.num := by
      rw [← hq.1]
      exact getD_some_lt _ _ _ hel
    exact (leafCheckB_iff q.1).mp hleaf i hi el hel hu
  · intro q hq
    have hqp := hb.2 q hq
    rw [hqp.2]
    constructor
    · rintro ⟨hleaf, hrep⟩
      refine ⟨(leafCheckB_iff q.1).mp hleaf, ?_⟩
      have h2 := (repAssign_rep_isSome sp (set_boundary_info q.1)).mp hrep
      rwa [(set_boundary_info_fields q.1).1] at h2
    · rintro ⟨hleaf, hrep⟩
      refine ⟨(leafCheckB_iff q.1).mpr hleaf, ?_⟩
      refine (repAssign_rep_isSome sp _).mpr ?_
      rwa [(set_boundary_info_fields q.1).1]

/-- A mesh whose only base element is unused. -/
def mUnusedT : Mesh :=
  ⟨[Elem.act ⟨1, false, true, true, true, true, true,
      false, false, false, false, 1⟩]⟩

/-- C1 counterexample: with `spaces_size = 1`, mesh 0 unused and mesh 1
used and active, the single processed state passes the leaf test
(`true`), contains a non-null element (mesh 1), yet no state is
returned to the caller (0 emitted, flag `false`) because no mesh below
`spaces_size` contributes a representative — refuting "returned iff
every non-null used element is active". -/
theorem claim_C1_counterexample :
    Except.map (fun r => (r.1.length,
        r.2.map fun q => (leafCheckB q.1, q.1.e.map Option.isSome, q.2)))
      (get_states [mUnusedT, mA] 1)
      = Except.ok (0, [(true, [false, true], false)]) := by rfl

/-- Witness for C1 at a concrete input. -/
theorem claim_C1_witness :
    (∀ s ∈ gsResA.1, ∀ i (el : Elem), s.e.getD i none = some el →
      el.used = true → el.active = true)
    ∧ (∀ q ∈ gsResA.2, (q.2 = true ↔
        ((∀ i, i < q.1.num → ∀ el, q.1.e.getD i none = some el →
            el.used = true → el.active = true)
          ∧ ∃ j, j < 1 ∧ usedAtE q.1.e j))) :=
  claim_C1 [mA] 1 gsResA (by rfl)

/-! ### C2: the representative mesh -/

theorem getD_take_of_lt {α : Type} (l : List (Option α)) (n j : Nat)
    (h : j < n) : (l.take n).getD j none = l.getD j none := by
  rw [List.getD_eq_getElem?_getD, List.getD_eq_getElem?_getD,
    List.getElem?_take_of_lt h]

/-- C2 (amended): every state returned by a successful traversal has a
representative, and it is the element of the LAST mesh index
`j < spaces_size` with a non-null used element (`rep = e[j]`,
`rep_i = j`, and no used mesh lies strictly between `j` and
`spaces_size`); meshes at indices at or beyond `spaces_size` never
determine the representative, and a state is cloned and emitted only if
such a representative exists.  The original claim's "first such index"
is wrong: the scan at traverse.cpp lines 413-418 has no break, so the
last qualifying index wins (see `claim_C2_counterexample`). -/
theorem claim_C2 :
    ∀ (ms : List Mesh) (sp : Nat) (res : List St × List (St × Bool)),
      get_states ms sp = Except.ok res →
      ∀ s ∈ res.1, ∃ j, j < sp
        ∧ (∃ el, s.e.getD j none = some el ∧ el.used = true
            ∧ s.rep = some el ∧ s.rep_i = j)
        ∧ ∀ j2, j < j2 → j2 < sp → ¬ usedAtE s.e j2 := by
  intro ms sp res h s hs
  have hb := basesLoop_spec ms sp ms.length 256 _ ([], []) res
    (by simp [emFromTr]) (by simp) h
  rw [hb.1] at hs
  simp only [emFromTr, List.mem_map, List.mem_filter] at hs
  obtain ⟨q, ⟨hqmem, hqflag⟩, rfl⟩ := hs
  have hq := hb.2 q hqmem
  obtain ⟨hleaf, hrep⟩ := hq.2.mp hqflag
  have hex := (repAssign_rep_isSome sp (set_boundary_info q.1)).mp hrep
  rw [(set_boundary_info_fields q.1).1] at hex
  obtain ⟨j, hj, hu, hmax⟩ := exists_last_usedAt sp q.1.e hex
  obtain ⟨el, hel, helu⟩ := hu
  have hjlen : j < q.1.e.length := getD_some_lt _ _ _ hel
  have hjnum : j < q.1.num := hq.1 ▸ hjlen
  have hlast := repAssign_last sp (set_boundary_info q.1) j el hj
    (by rw [(set_boundary_info_fields q.1).1]; exact hel) helu
    (fun j2 h1 h2 => by
      rw [(set_boundary_info_fields q.1).1]; exact hmax j2 h1 h2)
  refine ⟨j, hj, ⟨el, ?_, helu, ?_, ?_⟩, ?_⟩
  · rw [clone_e_of_snapshot sp q.1, getD_take_of_lt _ _ _ hjnum]
    exact hel
  · show (repAssign sp (set_boundary_info q.1)).rep = some el
    exact hlast.1
  · show (repAssign sp (set_boundary_info q.1)).rep_i = j
    exact hlast.2
  · intro j2 h1 h2
    rintro ⟨el2, hel2, hu2⟩
    rw [clone_e_of_snapshot sp q.1] at hel2
    by_cases hlt : j2 < q.1.num
    · rw [getD_take_of_lt _ _ _ hlt] at hel2
      exact hmax j2 h1 h2 ⟨el2, hel2, hu2⟩
    · have : j2 < (q.1.e.take q.1.num).length := getD_some_lt _ _ _ hel2
      rw [List.length_take] at this
      omega

/-- C2 counterexample: two used active meshes with `spaces_size = 2`.
Both meshes contribute non-null used elements (ids 1 and 2 at indices
0 and 1); the emitted state's representative is the element of index 1
— the last qualifying mesh — not of the first index 0 as claimed. -/
theorem claim_C2_counterexample :
    Except.map (fun r => r.1.map fun s =>
        (s.rep_i, s.rep.map fun el => el.data.id,
          s.e.map fun oe => oe.map fun el => el.data.id))
      (get_states [mA, mB] 2)
      = Except.ok [(1, some 2, [some 1, some 2])]
    ∧ (1 : Nat) ≠ 0 :=
  ⟨by rfl, by decide⟩

/-- The concrete result of traversing `[mA, mB]` with two spaces. -/
def gsResAB : List St × List (St × Bool) :=
  match get_states [mA, mB] 2 with
  | Except.ok r => r
  | Except.error _ => ([], [])

/-- Witness for C2 at a concrete input. -/
theorem claim_C2_witness :
    gsResAB.1.length = 1
    ∧ ∀ s ∈ gsResAB.1, ∃ j, j < 2
      ∧ (∃ el, s.e.getD j none = some el ∧ el.used = true
          ∧ s.rep = some el ∧ s.rep_i = j)
      ∧ ∀ j2, j < j2 → j2 < 2 → ¬ usedAtE s.e j2 :=
  ⟨by rfl, claim_C2 [mA, mB] 2 gsResAB (by rfl)⟩

/-! ### C9: determinism and emission order -/

/-- The emitted list decomposes into per-base-element blocks, in the
order the base ids are walked. -/
theorem basesLoop_parts (ms : List Mesh) (sp num size : Nat) :
    ∀ (ids : List Nat) (acc res : List St × List (St × Bool)),
      basesLoop ms sp num size ids acc = Except.ok res →
      ∃ parts : List (List St),
        parts.length = ids.length
        ∧ res.1 = acc.1 ++ parts.flatten
        ∧ ∀ k, k < ids.length →
            (nusedB ms num (ids.getD k 0) = true →
              ∃ tr2, processState sp size
                  (stFuel (baseState ms num (ids.getD k 0))) 0
                  (baseState ms num (ids.getD k 0))
                = Except.ok (parts.getD k [], tr2))
            ∧ (nusedB ms num (ids.getD k 0) = false →
              parts.getD k [] = []) := by
  intro ids
  induction ids with
  | nil =>
    intro acc res h
    cases h
    exact ⟨[], rfl, by simp, fun k hk => absurd hk (by simp)⟩
  | cons id rest ih =>
    intro acc res h
    simp only [basesLoop] at h
    split at h
    · rename_i hn
      split at h
      · cases h
      · split at h
        · cases h
        · rename_i r em tr heq
          obtain ⟨parts, hplen, hp1, hp2⟩ := ih _ res h
          refine ⟨em :: parts, by simp [hplen], ?_, ?_⟩
          · rw [hp1]
            simp [List.append_assoc]
          · intro k hk
            cases k with
            | zero =>
              exact ⟨fun _ => ⟨tr, heq⟩,
                fun hf => by simp [List.getD_cons_zero, hn] at hf⟩
            | succ k => exact hp2 k (by simpa using hk)
    · rename_i hn
      obtain ⟨parts, hplen, hp1, hp2⟩ := ih acc res h
      refine ⟨[] :: parts, by simp [hplen], by simpa using hp1, ?_⟩
      intro k hk
      cases k with
      | zero => exact ⟨fun ht => absurd ht hn, fun _ => rfl⟩
      | succ k => exact hp2 k (by simpa using hk)

/-- C9 (amended): the traversal is a pure function of its inputs (two
runs over the same meshes return identical results), and the emitted
states decompose into consecutive blocks indexed by the base element
ids of mesh 0 in ascending order — each block being precisely the
subtree output of that base element's state, empty for ids with no
used element.  The original claim's within-base son order "0,1,2,3" is
wrong: son states are pushed on a LIFO stack in son order, so each
level is emitted in reverse son order 3,2,1,0
(see `claim_C9_counterexample`). -/
theorem claim_C9 :
    (∀ (ms : List Mesh) (sp : Nat), get_states ms sp = get_states ms sp)
    ∧ (∀ (ms : List Mesh) (sp : Nat) (res : List St × List (St × Bool)),
        get_states ms sp = Except.ok res →
        ∃ parts : List (List St),
          parts.length = (ms.getD 0 emptyMesh).get_num_base_elements
          ∧ res.1 = parts.flatten
          ∧ ∀ id, id < parts.length →
              (nusedB ms ms.length id = true →
                ∃ tr2, processState sp 256
                    (stFuel (baseState ms ms.length id)) 0
                    (baseState ms ms.length id)
                  = Except.ok (parts.getD id [], tr2))
              ∧ (nusedB ms ms.length id = false →
                parts.getD id [] = [])) := by
  constructor
  · intro ms sp; rfl
  · intro ms sp res h
    obtain ⟨parts, hplen, hp1, hp2⟩ := basesLoop_parts ms sp ms.length 256
      (List.range ((ms.getD 0 emptyMesh).get_num_base_elements))
      ([], []) res h
    rw [List.length_range] at hplen
    refine ⟨parts, hplen, by simpa using hp1, ?_⟩
    intro id hid
    have hidn : id < (ms.getD 0 emptyMesh).get_num_base_elements :=
      hplen ▸ hid
    have hr : (List.range
        ((ms.getD 0 emptyMesh).get_num_base_elements)).getD id 0 = id := by
      rw [List.getD_eq_getElem?_getD, List.getElem?_range hidn]
      rfl
    have h2 := hp2 id (by rw [List.length_range]; exact hidn)
    rw [hr] at h2
    exact h2

/-- One base triangle refined into four active sons with ids
10, 11, 12, 13. -/
def mTriSplit : Mesh :=
  ⟨[Elem.tri4 (tData 1) (Elem.act (tData 10)) (Elem.act (tData 11))
      (Elem.act (tData 12)) (Elem.act (tData 13))]⟩

/-- An unrefined companion mesh. -/
def mTriAct : Mesh := ⟨[Elem.act (tData 2)]⟩

/-- C9 counterexample: one refined triangle mesh beside an unrefined
one.  The four leaves are emitted with the refined mesh's sons in the
order 13, 12, 11, 10 and the coarse mesh's `sub_idx` values 4, 3, 2, 1
— reverse son order, not the claimed depth-first son order 0,1,2,3
(which would list ids 10, 11, 12, 13 and `sub_idx` 1, 2, 3, 4). -/
theorem claim_C9_counterexample :
    Except.map (fun r => r.1.map fun s =>
        (s.sub_idx.getD 1 0, (s.e.getD 0 none).map fun el => el.data.id))
      (get_states [mTriSplit, mTriAct] 2)
      = Except.ok [(4, some 13), (3, some 12), (2, some 11), (1, some 10)]
    ∧ ([4, 3, 2, 1] : List Nat) ≠ [1, 2, 3, 4] :=
  ⟨by rfl, by decide⟩

/-- Witness for C9 at a concrete input. -/
theorem claim_C9_witness :
    ∃ parts : List (List St),
      parts.length = (([mA] : List Mesh).getD 0 emptyMesh).get_num_base_elements
      ∧ gsResA.1 = parts.flatten
      ∧ ∀ id, id < parts.length →
          (nusedB [mA] ([mA] : List Mesh).length id = true →
            ∃ tr2, processState 1 256
                (stFuel (baseState [mA] ([mA] : List Mesh).length id)) 0
                (baseState [mA] ([mA] : List Mesh).length id)
              = Except.ok (parts.getD id [], tr2))
          ∧ (nusedB [mA] ([mA] : List Mesh).length id = false →
            parts.getD id [] = []) :=
  claim_C9.2 [mA] 1 gsResA (by rfl)

/-! ### C10: dyadic rectangles -/

/-- The dyadic cell with horizontal index `i` at bisection depth `p` and
vertical index `j` at depth `q` (depths at most 63): the sub-rectangle
`[i·2^(63-p), (i+1)·2^(63-p)] × [j·2^(63-q), (j+1)·2^(63-q)]` of the
fixed-point unit square.  Every rectangle reachable from `H2D_UNITY` by
at most 63 midpoint bisections in each direction has this form. -/
def dy (i p j q : Nat) : Rect :=
  ⟨i * 2^(63-p), j * 2^(63-q), (i+1) * 2^(63-p), (j+1) * 2^(63-q)⟩

lemma H2D_UNITY_eq_dy : H2D_UNITY = dy 0 0 0 0 := by
  simp [H2D_UNITY, dy, ONE]

lemma mul_pow_le_iff (a b x : Nat) : a * 2^x ≤ b * 2^x ↔ a ≤ b := by
  constructor
  · intro h
    exact Nat.le_of_mul_le_mul_right h (pow_pos (by norm_num) x)
  · intro h
    exact Nat.mul_le_mul h (le_refl _)

lemma mul_pow_lt_iff (a b x : Nat) : a * 2^x < b * 2^x ↔ a < b := by
  constructor
  · intro h
    by_contra hc
    push_neg at hc
    have := Nat.mul_le_mul hc (le_refl (2^x))
    omega
  · intro h
    have h1 : a + 1 ≤ b := h
    have h2 : (a+1) * 2^x ≤ b * 2^x := Nat.mul_le_mul h1 (le_refl _)
    have h3 : a * 2^x < (a+1) * 2^x := by
      have hp : 0 < 2^x := pow_pos (by norm_num) x
      have he : (a+1) * 2^x = a * 2^x + 2^x := by ring
      omega
    omega

lemma hmid_dy (i p p' : Nat) (h1 : p < p') (h2 : p' ≤ 63) :
    (i * 2^(63-p) + (i+1) * 2^(63-p)) / 2
      = (2*i+1) * 2^(p'-p-1) * 2^(63-p') := by
  have e1 : 63 - p = (62 - p) + 1 := by omega
  have e3 : i * 2^((62-p)+1) + (i+1) * 2^((62-p)+1) = ((2*i+1) * 2^(62-p)) * 2 := by
    rw [pow_succ]; ring
  have e4 : ((2*i+1) * 2^(62-p)) * 2 / 2 = (2*i+1) * 2^(62-p) := by omega
  have e2 : 62 - p = (p' - p - 1) + (63 - p') := by omega
  rw [e1, e3, e4, e2, pow_add, ← mul_assoc]

lemma vmid_dy (j q q' : Nat) (h1 : q < q') (h2 : q' ≤ 63) :
    ((j+1) * 2^(63-q) + j * 2^(63-q)) / 2
      = (2*j+1) * 2^(q'-q-1) * 2^(63-q') := by
  rw [Nat.add_comm]
  exact hmid_dy j q q' h1 h2

lemma hmid_dy_self (i p : Nat) (h : p < 63) :
    (i * 2^(63-p) + (i+1) * 2^(63-p)) / 2 = (2*i+1) * 2^(62-p) := by
  have e1 : 63 - p = (62 - p) + 1 := by omega
  have e3 : i * 2^((62-p)+1) + (i+1) * 2^((62-p)+1) = ((2*i+1) * 2^(62-p)) * 2 := by
    rw [pow_succ]; ring
  have e4 : ((2*i+1) * 2^(62-p)) * 2 / 2 = (2*i+1) * 2^(62-p) := by omega
  rw [e1, e3, e4]

lemma vmid_dy_self (j q : Nat) (h : q < 63) :
    ((j+1) * 2^(63-q) + j * 2^(63-q)) / 2 = (2*j+1) * 2^(62-q) := by
  rw [Nat.add_comm]
  exact hmid_dy_self j q h

lemma hmid_dy_63 (i : Nat) :
    (i * 2^(63-63) + (i+1) * 2^(63-63)) / 2 = i := by
  simp only [Nat.sub_self, pow_zero, mul_one]
  omega

lemma vmid_dy_63 (j : Nat) :
    ((j+1) * 2^(63-63) + j * 2^(63-63)) / 2 = j := by
  simp only [Nat.sub_self, pow_zero, mul_one]
  omega

lemma coord_split (a p p' : Nat) (h1 : p ≤ p') (h2 : p' ≤ 63) :
    a * 2^(63-p) = a * 2^(p'-p) * 2^(63-p') := by
  have e : (p'-p) + (63-p') = 63 - p := by omega
  rw [mul_assoc, ← pow_add, e]

lemma coord_succ (a p : Nat) (h : p < 63) :
    a * 2^(63-p) = 2*a * 2^(62-p) := by
  have e1 : 63 - p = (62-p) + 1 := by omega
  rw [e1, pow_succ]; ring

lemma cont_left (a a' s s' : Nat) (hs : s < s')
    (h1 : a * 2^(s'-s) ≤ a') (hL : a' < (2*a+1) * 2^(s'-s-1)) :
    2*a * 2^(s'-(s+1)) ≤ a' ∧ a' + 1 ≤ (2*a+1) * 2^(s'-(s+1)) := by
  rw [show s' - (s+1) = s'-s-1 from by omega]
  have h2 : a * 2^(s'-s) = 2*a * 2^(s'-s-1) := by
    obtain ⟨k, hk⟩ : ∃ k, s' - s = k + 1 := ⟨s' - s - 1, by omega⟩
    rw [hk, Nat.add_sub_cancel, pow_succ]; ring
  omega

lemma cont_right (a a' s s' : Nat) (hs : s < s')
    (h1 : a' + 1 ≤ (a+1) * 2^(s'-s)) (hR : (2*a+1) * 2^(s'-s-1) ≤ a') :
    (2*a+1) * 2^(s'-(s+1)) ≤ a' ∧ a' + 1 ≤ (2*a+1+1) * 2^(s'-(s+1)) := by
  rw [show s' - (s+1) = s'-s-1 from by omega]
  have h2 : (a+1) * 2^(s'-s) = (2*a+1+1) * 2^(s'-s-1) := by
    obtain ⟨k, hk⟩ : ∃ k, s' - s = k + 1 := ⟨s' - s - 1, by omega⟩
    rw [hk, Nat.add_sub_cancel, pow_succ]; ring
  omega

lemma move0_dy (i p j q : Nat) (hp : p < 63) (hq : q < 63) :
    move_to_son (dy i p j q) 0 = dy (2*i) (p+1) (2*j) (q+1) := by
  simp only [move_to_son, dy]
  rw [hmid_dy_self i p hp, vmid_dy_self j q hq,
    show (63:Nat) - (p+1) = 62 - p from by omega,
    show (63:Nat) - (q+1) = 62 - q from by omega,
    coord_succ i p hp, coord_succ j q hq]

lemma move1_dy (i p j q : Nat) (hp : p < 63) (hq : q < 63) :
    move_to_son (dy i p j q) 1 = dy (2*i+1) (p+1) (2*j) (q+1) := by
  simp only [move_to_son, dy]
  rw [hmid_dy_self i p hp, vmid_dy_self j q hq,
    show (63:Nat) - (p+1) = 62 - p from by omega,
    show (63:Nat) - (q+1) = 62 - q from by omega,
    coord_succ (i+1) p hp, coord_succ j q hq]
  congr 1 <;> ring

lemma move2_dy (i p j q : Nat) (hp : p < 63) (hq : q < 63) :
    move_to_son (dy i p j q) 2 = dy (2*i+1) (p+1) (2*j+1) (q+1) := by
  simp only [move_to_son, dy]
  rw [hmid_dy_self i p hp, vmid_dy_self j q hq,
    show (63:Nat) - (p+1) = 62 - p from by omega,
    show (63:Nat) - (q+1) = 62 - q from by omega,
    coord_succ (i+1) p hp, coord_succ (j+1) q hq]
  congr 1 <;> ring

lemma move3_dy (i p j q : Nat) (hp : p < 63) (hq : q < 63) :
    move_to_son (dy i p j q) 3 = dy (2*i) (p+1) (2*j+1) (q+1) := by
  simp only [move_to_son, dy]
  rw [hmid_dy_self i p hp, vmid_dy_self j q hq,
    show (63:Nat) - (p+1) = 62 - p from by omega,
    show (63:Nat) - (q+1) = 62 - q from by omega,
    coord_succ i p hp, coord_succ (j+1) q hq]
  congr 1 <;> ring

lemma move4_dy (i p j q : Nat) (hq : q < 63) :
    move_to_son (dy i p j q) 4 = dy i p (2*j) (q+1) := by
  simp only [move_to_son, dy]
  rw [vmid_dy_self j q hq,
    show (63:Nat) - (q+1) = 62 - q from by omega,
    coord_succ j q hq]

lemma move5_dy (i p j q : Nat) (hq : q < 63) :
    move_to_son (dy i p j q) 5 = dy i p (2*j+1) (q+1) := by
  simp only [move_to_son, dy]
  rw [vmid_dy_self j q hq,
    show (63:Nat) - (q+1) = 62 - q from by omega,
    coord_succ (j+1) q hq]
  congr 1 <;> ring

lemma move6_dy (i p j q : Nat) (hp : p < 63) :
    move_to_son (dy i p j q) 6 = dy (2*i) (p+1) j q := by
  simp only [move_to_son, dy]
  rw [hmid_dy_self i p hp,
    show (63:Nat) - (p+1) = 62 - p from by omega,
    coord_succ i p hp]

lemma move7_dy (i p j q : Nat) (hp : p < 63) :
    move_to_son (dy i p j q) 7 = dy (2*i+1) (p+1) j q := by
  simp only [move_to_son, dy]
  rw [hmid_dy_self i p hp,
    show (63:Nat) - (p+1) = 62 - p from by omega,
    coord_succ (i+1) p hp]
  congr 1 <;> ring

lemma move2_q63 (i p j : Nat) (hp : p < 63) :
    move_to_son (dy i p j 63) 2 = dy (2*i+1) (p+1) j 63 := by
  simp only [move_to_son, dy]
  rw [hmid_dy_self i p hp, vmid_dy_63 j,
    show (63:Nat) - (p+1) = 62 - p from by omega,
    coord_succ (i+1) p hp]
  simp only [Nat.sub_self, pow_zero, mul_one]
  congr 1 <;> ring

lemma move3_q63 (i p j : Nat) (hp : p < 63) :
    move_to_son (dy i p j 63) 3 = dy (2*i) (p+1) j 63 := by
  simp only [move_to_son, dy]
  rw [hmid_dy_self i p hp, vmid_dy_63 j,
    show (63:Nat) - (p+1) = 62 - p from by omega,
    coord_succ i p hp]
  simp only [Nat.sub_self, pow_zero, mul_one]

lemma move1_p63 (i j q : Nat) (hq : q < 63) :
    move_to_son (dy i 63 j q) 1 = dy i 63 (2*j) (q+1) := by
  simp only [move_to_son, dy]
  rw [hmid_dy_63 i, vmid_dy_self j q hq,
    show (63:Nat) - (q+1) = 62 - q from by omega,
    coord_succ j q hq]
  simp only [Nat.sub_self, pow_zero, mul_one]

lemma move2_p63 (i j q : Nat) (hq : q < 63) :
    move_to_son (dy i 63 j q) 2 = dy i 63 (2*j+1) (q+1) := by
  simp only [move_to_son, dy]
  rw [hmid_dy_63 i, vmid_dy_self j q hq,
    show (63:Nat) - (q+1) = 62 - q from by omega,
    coord_succ (j+1) q hq]
  simp only [Nat.sub_self, pow_zero, mul_one]
  congr 1 <;> ring

lemma dy_guard (i p j q i' p' j' q' : Nat)
    (hp63 : p' ≤ 63) (hq63 : q' ≤ 63) (hp : p ≤ p') (hq : q ≤ q')
    (hi1 : i * 2^(p'-p) ≤ i') (hi2 : i' + 1 ≤ (i+1) * 2^(p'-p))
    (hj1 : j * 2^(q'-q) ≤ j') (hj2 : j' + 1 ≤ (j+1) * 2^(q'-q))
    (hne : p < p' ∨ q < q') :
    (dy i' p' j' q').l > (dy i p j q).l ∨ (dy i' p' j' q').r < (dy i p j q).r
    ∨ (dy i' p' j' q').b > (dy i p j q).b ∨ (dy i' p' j' q').t < (dy i p j q).t := by
  simp only [dy]
  rcases hne with hplt | hqlt
  · rcases Nat.lt_or_ge (i'+1) ((i+1) * 2^(p'-p)) with hlt | hge
    · refine Or.inr (Or.inl ?_)
      rw [coord_split (i+1) p p' hp hp63]
      exact (mul_pow_lt_iff _ _ _).mpr hlt
    · have heq : i' + 1 = (i+1) * 2^(p'-p) := le_antisymm hi2 hge
      refine Or.inl ?_
      rw [coord_split i p p' hp hp63]
      refine (mul_pow_lt_iff _ _ _).mpr ?_
      have hdist : (i+1) * 2^(p'-p) = i * 2^(p'-p) + 2^(p'-p) := by ring
      have h2k : 2 ≤ 2^(p'-p) := by
        have h1 : 1 ≤ p' - p := by omega
        calc (2:Nat) = 2^1 := (pow_one 2).symm
        _ ≤ 2^(p'-p) := Nat.pow_le_pow_right (by norm_num) h1
      omega
  · rcases Nat.lt_or_ge (j'+1) ((j+1) * 2^(q'-q)) with hlt | hge
    · refine Or.inr (Or.inr (Or.inr ?_))
      rw [coord_split (j+1) q q' hq hq63]
      exact (mul_pow_lt_iff _ _ _).mpr hlt
    · have heq : j' + 1 = (j+1) * 2^(q'-q) := le_antisymm hj2 hge
      refine Or.inr (Or.inr (Or.inl ?_))
      rw [coord_split j q q' hq hq63]
      refine (mul_pow_lt_iff _ _ _).mpr ?_
      have hdist : (j+1) * 2^(q'-q) = j * 2^(q'-q) + 2^(q'-q) := by ring
      have h2k : 2 ≤ 2^(q'-q) := by
        have h1 : 1 ≤ q' - q := by omega
        calc (2:Nat) = 2^1 := (pow_one 2).symm
        _ ≤ 2^(q'-q) := Nat.pow_le_pow_right (by norm_num) h1
      omega

lemma dy_step (i p j q i' p' j' q' : Nat)
    (hp63 : p' ≤ 63) (hq63 : q' ≤ 63) (hp : p ≤ p') (hq : q ≤ q')
    (hi1 : i * 2^(p'-p) ≤ i') (hi2 : i' + 1 ≤ (i+1) * 2^(p'-p))
    (hj1 : j * 2^(q'-q) ≤ j') (hj2 : j' + 1 ≤ (j+1) * 2^(q'-q))
    (hne : p < p' ∨ q < q') :
    ∃ son i₂ p₂ j₂ q₂,
      classify_it (dy i' p' j' q') (dy i p j q) = some son
      ∧ classify_ii (dy i' p' j' q') (dy i p j q) = some son
      ∧ move_to_son (dy i p j q) son = dy i₂ p₂ j₂ q₂
      ∧ p₂ ≤ p' ∧ q₂ ≤ q'
      ∧ i₂ * 2^(p'-p₂) ≤ i' ∧ i' + 1 ≤ (i₂+1) * 2^(p'-p₂)
      ∧ j₂ * 2^(q'-q₂) ≤ j' ∧ j' + 1 ≤ (j₂+1) * 2^(q'-q₂)
      ∧ (p'-p₂) + (q'-q₂) < (p'-p) + (q'-q) := by
  rcases Nat.lt_or_ge p p' with hplt | hpge
  · have hmidA := hmid_dy i p p' hplt hp63
    rcases Nat.lt_or_ge q q' with hqlt | hqge
    · -- both directions still split
      have vmidA := vmid_dy j q q' hqlt hq63
      rcases Nat.lt_or_ge i' ((2*i+1) * 2^(p'-p-1)) with hL | hR
      · have hcr : (i'+1) * 2^(63-p') ≤ (2*i+1) * 2^(p'-p-1) * 2^(63-p') :=
          (mul_pow_le_iff _ _ _).mpr (by omega)
        have hncl : ¬((2*i+1) * 2^(p'-p-1) * 2^(63-p') ≤ i' * 2^(63-p')) := fun hh => by
          have := (mul_pow_le_iff _ _ _).mp hh; omega
        obtain ⟨gi1, gi2⟩ := cont_left i i' p p' hplt hi1 hL
        rcases Nat.lt_or_ge j' ((2*j+1) * 2^(q'-q-1)) with hB | hT
        · have hct : (j'+1) * 2^(63-q') ≤ (2*j+1) * 2^(q'-q-1) * 2^(63-q') :=
            (mul_pow_le_iff _ _ _).mpr (by omega)
          obtain ⟨gj1, gj2⟩ := cont_left j j' q q' hqlt hj1 hB
          refine ⟨0, 2*i, p+1, 2*j, q+1, ?_, ?_,
            move0_dy i p j q (by omega) (by omega),
            by omega, by omega, gi1, gi2, gj1, gj2, by omega⟩
          · simp only [classify_it, dy, hmidA, vmidA]
            rw [if_pos ⟨hcr, hct⟩]
          · simp only [classify_ii, dy, hmidA, vmidA]
            rw [if_pos ⟨hcr, hct⟩]
        · have hnct : ¬((j'+1) * 2^(63-q') ≤ (2*j+1) * 2^(q'-q-1) * 2^(63-q')) := fun hh => by
            have := (mul_pow_le_iff _ _ _).mp hh; omega
          have hcb : (2*j+1) * 2^(q'-q-1) * 2^(63-q') ≤ j' * 2^(63-q') :=
            (mul_pow_le_iff _ _ _).mpr (by omega)
          obtain ⟨gj1, gj2⟩ := cont_right j j' q q' hqlt hj2 hT
          refine ⟨3, 2*i, p+1, 2*j+1, q+1, ?_, ?_,
            move3_dy i p j q (by omega) (by omega),
            by omega, by omega, gi1, gi2, gj1, gj2, by omega⟩
          · simp only [classify_it, dy, hmidA, vmidA]
            rw [if_neg (fun hh => hnct hh.2), if_neg (fun hh => hnct hh.2),
              if_neg (fun hh => hncl hh.1), if_pos ⟨hcr, hcb⟩]
          · simp only [classify_ii, dy, hmidA, vmidA]
            rw [if_neg (fun hh => hnct hh.2), if_neg (fun hh => hnct hh.2),
              if_neg (fun hh => hncl hh.1), if_pos ⟨hcr, hcb⟩]
      · have hcl : (2*i+1) * 2^(p'-p-1) * 2^(63-p') ≤ i' * 2^(63-p') :=
          (mul_pow_le_iff _ _ _).mpr (by omega)
        have hncr : ¬((i'+1) * 2^(63-p') ≤ (2*i+1) * 2^(p'-p-1) * 2^(63-p')) := fun hh => by
          have := (mul_pow_le_iff _ _ _).mp hh; omega
        obtain ⟨gi1, gi2⟩ := cont_right i i' p p' hplt hi2 hR
        rcases Nat.lt_or_ge j' ((2*j+1) * 2^(q'-q-1)) with hB | hT
        · have hct : (j'+1) * 2^(63-q') ≤ (2*j+1) * 2^(q'-q-1) * 2^(63-q') :=
            (mul_pow_le_iff _ _ _).mpr (by omega)
          obtain ⟨gj1, gj2⟩ := cont_left j j' q q' hqlt hj1 hB
          refine ⟨1, 2*i+1, p+1, 2*j, q+1, ?_, ?_,
            move1_dy i p j q (by omega) (by omega),
            by omega, by omega, gi1, gi2, gj1, gj2, by omega⟩
          · simp only [classify_it, dy, hmidA, vmidA]
            rw [if_neg (fun hh => hncr hh.1), if_pos ⟨hcl, hct⟩]
          · simp only [classify_ii, dy, hmidA, vmidA]
            rw [if_neg (fun hh => hncr hh.1), if_pos ⟨hcl, hct⟩]
        · have hnct : ¬((j'+1) * 2^(63-q') ≤ (2*j+1) * 2^(q'-q-1) * 2^(63-q')) := fun hh => by
            have := (mul_pow_le_iff _ _ _).mp hh; omega
          have hcb : (2*j+1) * 2^(q'-q-1) * 2^(63-q') ≤ j' * 2^(63-q') :=
            (mul_pow_le_iff _ _ _).mpr (by omega)
          obtain ⟨gj1, gj2⟩ := cont_right j j' q q' hqlt hj2 hT
          refine ⟨2, 2*i+1, p+1, 2*j+1, q+1, ?_, ?_,
            move2_dy i p j q (by omega) (by omega),
            by omega, by omega, gi1, gi2, gj1, gj2, by omega⟩
          · simp only [classify_it, dy, hmidA, vmidA]
            rw [if_neg (fun hh => hncr hh.1), if_neg (fun hh => hnct hh.2),
              if_pos ⟨hcl, hcb⟩]
          · simp only [classify_ii, dy, hmidA, vmidA]
            rw [if_neg (fun hh => hncr hh.1), if_neg (fun hh => hnct hh.2),
              if_pos ⟨hcl, hcb⟩]
    · -- vertical already exact
      have hqe : q = q' := le_antisymm hq hqge
      subst hqe
      have hje : j = j' := by
        simp only [Nat.sub_self, pow_zero, mul_one] at hj1 hj2; omega
      subst hje
      by_cases hqeq : q = 63
      · subst hqeq
        have vmid63 := vmid_dy_63 j
        have hnct : ¬((j+1) * 2^(63-63) ≤ j) := fun hh => by
          simp only [Nat.sub_self, pow_zero, mul_one] at hh; omega
        have hcb : j ≤ j * 2^(63-63) := by simp
        rcases Nat.lt_or_ge i' ((2*i+1) * 2^(p'-p-1)) with hL | hR
        · have hcr : (i'+1) * 2^(63-p') ≤ (2*i+1) * 2^(p'-p-1) * 2^(63-p') :=
            (mul_pow_le_iff _ _ _).mpr (by omega)
          have hncl : ¬((2*i+1) * 2^(p'-p-1) * 2^(63-p') ≤ i' * 2^(63-p')) := fun hh => by
            have := (mul_pow_le_iff _ _ _).mp hh; omega
          obtain ⟨gi1, gi2⟩ := cont_left i i' p p' hplt hi1 hL
          refine ⟨3, 2*i, p+1, j, 63, ?_, ?_, move3_q63 i p j (by omega),
            by omega, by omega, gi1, gi2, by simp, by simp, by omega⟩
          · simp only [classify_it, dy, hmidA, vmid63]
            rw [if_neg (fun hh => hnct hh.2), if_neg (fun hh => hnct hh.2),
              if_neg (fun hh => hncl hh.1), if_pos ⟨hcr, hcb⟩]
          · simp only [classify_ii, dy, hmidA, vmid63]
            rw [if_neg (fun hh => hnct hh.2), if_neg (fun hh => hnct hh.2),
              if_neg (fun hh => hncl hh.1), if_pos ⟨hcr, hcb⟩]
        · have hcl : (2*i+1) * 2^(p'-p-1) * 2^(63-p') ≤ i' * 2^(63-p') :=
            (mul_pow_le_iff _ _ _).mpr (by omega)
          have hncr : ¬((i'+1) * 2^(63-p') ≤ (2*i+1) * 2^(p'-p-1) * 2^(63-p')) := fun hh => by
            have := (mul_pow_le_iff _ _ _).mp hh; omega
          obtain ⟨gi1, gi2⟩ := cont_right i i' p p' hplt hi2 hR
          refine ⟨2, 2*i+1, p+1, j, 63, ?_, ?_, move2_q63 i p j (by omega),
            by omega, by omega, gi1, gi2, by simp, by simp, by omega⟩
          · simp only [classify_it, dy, hmidA, vmid63]
            rw [if_neg (fun hh => hnct hh.2), if_neg (fun hh => hnct hh.2),
              if_pos ⟨hcl, hcb⟩]
          · simp only [classify_ii, dy, hmidA, vmid63]
            rw [if_neg (fun hh => hnct hh.2), if_neg (fun hh => hnct hh.2),
              if_pos ⟨hcl, hcb⟩]
      · have hqlt63 : q < 63 := by omega
        have vmidS := vmid_dy_self j q hqlt63
        have hnct : ¬((j+1) * 2^(63-q) ≤ (2*j+1) * 2^(62-q)) := fun hh => by
          rw [coord_succ (j+1) q hqlt63] at hh
          have := (mul_pow_le_iff _ _ _).mp hh; omega
        have hncb : ¬((2*j+1) * 2^(62-q) ≤ j * 2^(63-q)) := fun hh => by
          rw [coord_succ j q hqlt63] at hh
          have := (mul_pow_le_iff _ _ _).mp hh; omega
        rcases Nat.lt_or_ge i' ((2*i+1) * 2^(p'-p-1)) with hL | hR
        · have hcr : (i'+1) * 2^(63-p') ≤ (2*i+1) * 2^(p'-p-1) * 2^(63-p') :=
            (mul_pow_le_iff _ _ _).mpr (by omega)
          obtain ⟨gi1, gi2⟩ := cont_left i i' p p' hplt hi1 hL
          refine ⟨6, 2*i, p+1, j, q, ?_, ?_, move6_dy i p j q (by omega),
            by omega, by omega, gi1, gi2, by simp, by simp, by omega⟩
          · simp only [classify_it, dy, hmidA, vmidS]
            rw [if_neg (fun hh => hnct hh.2), if_neg (fun hh => hnct hh.2),
              if_neg (fun hh => hncb hh.2), if_neg (fun hh => hncb hh.2),
              if_pos hcr]
          · simp only [classify_ii, dy, hmidA, vmidS]
            rw [if_neg (fun hh => hnct hh.2), if_neg (fun hh => hnct hh.2),
              if_neg (fun hh => hncb hh.2), if_neg (fun hh => hncb hh.2),
              if_neg hnct, if_neg hncb, if_pos hcr]
        · have hcl : (2*i+1) * 2^(p'-p-1) * 2^(63-p') ≤ i' * 2^(63-p') :=
            (mul_pow_le_iff _ _ _).mpr (by omega)
          have hncr : ¬((i'+1) * 2^(63-p') ≤ (2*i+1) * 2^(p'-p-1) * 2^(63-p')) := fun hh => by
            have := (mul_pow_le_iff _ _ _).mp hh; omega
          obtain ⟨gi1, gi2⟩ := cont_right i i' p p' hplt hi2 hR
          refine ⟨7, 2*i+1, p+1, j, q, ?_, ?_, move7_dy i p j q (by omega),
            by omega, by omega, gi1, gi2, by simp, by simp, by omega⟩
          · simp only [classify_it, dy, hmidA, vmidS]
            rw [if_neg (fun hh => hnct hh.2), if_neg (fun hh => hnct hh.2),
              if_neg (fun hh => hncb hh.2), if_neg (fun hh => hncb hh.2),
              if_neg hncr, if_pos hcl]
          · simp only [classify_ii, dy, hmidA, vmidS]
            rw [if_neg (fun hh => hnct hh.2), if_neg (fun hh => hnct hh.2),
              if_neg (fun hh => hncb hh.2), if_neg (fun hh => hncb hh.2),
              if_neg hnct, if_neg hncb, if_neg hncr, if_pos hcl]
  · -- horizontal already exact
    have hpe : p = p' := le_antisymm hp hpge
    subst hpe
    have hie : i = i' := by
      simp only [Nat.sub_self, pow_zero, mul_one] at hi1 hi2; omega
    subst hie
    have hqlt : q < q' := hne.resolve_left (lt_irrefl p)
    have vmidA := vmid_dy j q q' hqlt hq63
    by_cases hpeq : p = 63
    · subst hpeq
      have hmid63 := hmid_dy_63 i
      have hncr : ¬((i+1) * 2^(63-63) ≤ i) := fun hh => by
        simp only [Nat.sub_self, pow_zero, mul_one] at hh; omega
      have hcl : i ≤ i * 2^(63-63) := by simp
      rcases Nat.lt_or_ge j' ((2*j+1) * 2^(q'-q-1)) with hB | hT
      · have hct : (j'+1) * 2^(63-q') ≤ (2*j+1) * 2^(q'-q-1) * 2^(63-q') :=
          (mul_pow_le_iff _ _ _).mpr (by omega)
        obtain ⟨gj1, gj2⟩ := cont_left j j' q q' hqlt hj1 hB
        refine ⟨1, i, 63, 2*j, q+1, ?_, ?_, move1_p63 i j q (by omega),
          by omega, by omega, by simp, by simp, gj1, gj2, by omega⟩
        · simp only [classify_it, dy, hmid63, vmidA]
          rw [if_neg (fun hh => hncr hh.1), if_pos ⟨hcl, hct⟩]
        · simp only [classify_ii, dy, hmid63, vmidA]
          rw [if_neg (fun hh => hncr hh.1), if_pos ⟨hcl, hct⟩]
      · have hnct : ¬((j'+1) * 2^(63-q') ≤ (2*j+1) * 2^(q'-q-1) * 2^(63-q')) := fun hh => by
          have := (mul_pow_le_iff _ _ _).mp hh; omega
        have hcb : (2*j+1) * 2^(q'-q-1) * 2^(63-q') ≤ j' * 2^(63-q') :=
          (mul_pow_le_iff _ _ _).mpr (by omega)
        obtain ⟨gj1, gj2⟩ := cont_right j j' q q' hqlt hj2 hT
        refine ⟨2, i, 63, 2*j+1, q+1, ?_, ?_, move2_p63 i j q (by omega),
          by omega, by omega, by simp, by simp, gj1, gj2, by omega⟩
        · simp only [classify_it, dy, hmid63, vmidA]
          rw [if_neg (fun hh => hncr hh.1), if_neg (fun hh => hnct hh.2),
            if_pos ⟨hcl, hcb⟩]
        · simp only [classify_ii, dy, hmid63, vmidA]
          rw [if_neg (fun hh => hncr hh.1), if_neg (fun hh => hnct hh.2),
            if_pos ⟨hcl, hcb⟩]
    · have hplt63 : p < 63 := by omega
      have hmidS := hmid_dy_self i p hplt63
      have hncr : ¬((i+1) * 2^(63-p) ≤ (2*i+1) * 2^(62-p)) := fun hh => by
        rw [coord_succ (i+1) p hplt63] at hh
        have := (mul_pow_le_iff _ _ _).mp hh; omega
      have hncl : ¬((2*i+1) * 2^(62-p) ≤ i * 2^(63-p)) := fun hh => by
        rw [coord_succ i p hplt63] at hh
        have := (mul_pow_le_iff _ _ _).mp hh; omega
      rcases Nat.lt_or_ge j' ((2*j+1) * 2^(q'-q-1)) with hB | hT
      · have hct : (j'+1) * 2^(63-q') ≤ (2*j+1) * 2^(q'-q-1) * 2^(63-q') :=
          (mul_pow_le_iff _ _ _).mpr (by omega)
        obtain ⟨gj1, gj2⟩ := cont_left j j' q q' hqlt hj1 hB
        refine ⟨4, i, p, 2*j, q+1, ?_, ?_, move4_dy i p j q (by omega),
          by omega, by omega, by simp, by simp, gj1, gj2, by omega⟩
        · simp only [classify_it, dy, hmidS, vmidA]
          rw [if_neg (fun hh => hncr hh.1), if_neg (fun hh => hncl hh.1),
            if_neg (fun hh => hncl hh.1), if_neg (fun hh => hncr hh.1),
            if_neg hncr, if_neg hncl, if_pos hct]
        · simp only [classify_ii, dy, hmidS, vmidA]
          rw [if_neg (fun hh => hncr hh.1), if_neg (fun hh => hncl hh.1),
            if_neg (fun hh => hncl hh.1), if_neg (fun hh => hncr hh.1),
            if_pos hct]
      · have hnct : ¬((j'+1) * 2^(63-q') ≤ (2*j+1) * 2^(q'-q-1) * 2^(63-q')) := fun hh => by
          have := (mul_pow_le_iff _ _ _).mp hh; omega
        have hcb : (2*j+1) * 2^(q'-q-1) * 2^(63-q') ≤ j' * 2^(63-q') :=
          (mul_pow_le_iff _ _ _).mpr (by omega)
        obtain ⟨gj1, gj2⟩ := cont_right j j' q q' hqlt hj2 hT
        refine ⟨5, i, p, 2*j+1, q+1, ?_, ?_, move5_dy i p j q (by omega),
          by omega, by omega, by simp, by simp, gj1, gj2, by omega⟩
        · simp only [classify_it, dy, hmidS, vmidA]
          rw [if_neg (fun hh => hncr hh.1), if_neg (fun hh => hncl hh.1),
            if_neg (fun hh => hncl hh.1), if_neg (fun hh => hncr hh.1),
            if_neg hncr, if_neg hncl, if_neg hnct, if_pos hcb]
        · simp only [classify_ii, dy, hmidS, vmidA]
          rw [if_neg (fun hh => hncr hh.1), if_neg (fun hh => hncl hh.1),
            if_neg (fun hh => hncl hh.1), if_neg (fun hh => hncr hh.1),
            if_neg hnct, if_pos hcb]

lemma itLoop_succ_pos (cr r : Rect) (fuel son : Nat)
    (hg : cr.l > r.l ∨ cr.r < r.r ∨ cr.b > r.b ∨ cr.t < r.t)
    (hc : classify_it cr r = some son) :
    itLoop cr (fuel+1) r
      = match itLoop cr fuel (move_to_son r son) with
        | none => none
        | some (sons, rf) => some (son :: sons, rf) := by
  simp only [itLoop, if_pos hg, hc]

lemma itLoop_succ_stop (cr r : Rect) (fuel : Nat)
    (hg : ¬(cr.l > r.l ∨ cr.r < r.r ∨ cr.b > r.b ∨ cr.t < r.t)) :
    itLoop cr (fuel+1) r = some ([], r) := by
  simp only [itLoop, if_neg hg]

lemma iiLoop_succ_pos (cr r : Rect) (fuel idx son : Nat)
    (hg : cr.l > r.l ∨ cr.r < r.r ∨ cr.b > r.b ∨ cr.t < r.t)
    (hc : classify_ii cr r = some son) :
    iiLoop cr (fuel+1) r idx
      = iiLoop cr fuel (move_to_son r son) ((idx * 8 + son + 1) % U64) := by
  simp only [iiLoop, if_pos hg, hc]

lemma iiLoop_succ_stop (cr r : Rect) (fuel idx : Nat)
    (hg : ¬(cr.l > r.l ∨ cr.r < r.r ∨ cr.b > r.b ∨ cr.t < r.t)) :
    iiLoop cr (fuel+1) r idx = some (idx, r) := by
  simp only [iiLoop, if_neg hg]

lemma itLoop_dy (i' p' j' q' : Nat) (hp63 : p' ≤ 63) (hq63 : q' ≤ 63) :
    ∀ fuel i p j q, p ≤ p' → q ≤ q' →
      i * 2^(p'-p) ≤ i' → i' + 1 ≤ (i+1) * 2^(p'-p) →
      j * 2^(q'-q) ≤ j' → j' + 1 ≤ (j+1) * 2^(q'-q) →
      (p'-p) + (q'-q) < fuel →
      ∃ sons, itLoop (dy i' p' j' q') fuel (dy i p j q)
        = some (sons, dy i' p' j' q') := by
  intro fuel
  induction fuel with
  | zero =>
    intro i p j q _ _ _ _ _ _ hf
    exact absurd hf (Nat.not_lt_zero _)
  | succ fuel ih =>
    intro i p j q hp hq hi1 hi2 hj1 hj2 hf
    by_cases hne : p < p' ∨ q < q'
    · have hguard := dy_guard i p j q i' p' j' q' hp63 hq63 hp hq hi1 hi2 hj1 hj2 hne
      obtain ⟨son, i₂, p₂, j₂, q₂, hit, hii, hmv, hp₂, hq₂, hia, hib, hja, hjb, hmeas⟩ :=
        dy_step i p j q i' p' j' q' hp63 hq63 hp hq hi1 hi2 hj1 hj2 hne
      obtain ⟨sons, hrec⟩ := ih i₂ p₂ j₂ q₂ hp₂ hq₂ hia hib hja hjb (by omega)
      refine ⟨son :: sons, ?_⟩
      rw [itLoop_succ_pos _ _ fuel son hguard hit, hmv, hrec]
    · push_neg at hne
      have hpe : p = p' := le_antisymm hp hne.1
      have hqe : q = q' := le_antisymm hq hne.2
      subst hpe
      subst hqe
      have hie : i = i' := by
        simp only [Nat.sub_self, pow_zero, mul_one] at hi1 hi2; omega
      have hje : j = j' := by
        simp only [Nat.sub_self, pow_zero, mul_one] at hj1 hj2; omega
      subst hie
      subst hje
      exact ⟨[], itLoop_succ_stop _ _ fuel (by simp)⟩

lemma iiLoop_dy (i' p' j' q' : Nat) (hp63 : p' ≤ 63) (hq63 : q' ≤ 63) :
    ∀ fuel i p j q idx, p ≤ p' → q ≤ q' →
      i * 2^(p'-p) ≤ i' → i' + 1 ≤ (i+1) * 2^(p'-p) →
      j * 2^(q'-q) ≤ j' → j' + 1 ≤ (j+1) * 2^(q'-q) →
      (p'-p) + (q'-q) < fuel →
      ∃ v, iiLoop (dy i' p' j' q') fuel (dy i p j q) idx
        = some (v, dy i' p' j' q') := by
  intro fuel
  induction fuel with
  | zero =>
    intro i p j q idx _ _ _ _ _ _ hf
    exact absurd hf (Nat.not_lt_zero _)
  | succ fuel ih =>
    intro i p j q idx hp hq hi1 hi2 hj1 hj2 hf
    by_cases hne : p < p' ∨ q < q'
    · have hguard := dy_guard i p j q i' p' j' q' hp63 hq63 hp hq hi1 hi2 hj1 hj2 hne
      obtain ⟨son, i₂, p₂, j₂, q₂, hit, hii, hmv, hp₂, hq₂, hia, hib, hja, hjb, hmeas⟩ :=
        dy_step i p j q i' p' j' q' hp63 hq63 hp hq hi1 hi2 hj1 hj2 hne
      rw [iiLoop_succ_pos _ _ fuel idx son hguard hii, hmv]
      exact ih i₂ p₂ j₂ q₂ ((idx * 8 + son + 1) % U64) hp₂ hq₂ hia hib hja hjb (by omega)
    · push_neg at hne
      have hpe : p = p' := le_antisymm hp hne.1
      have hqe : q = q' := le_antisymm hq hne.2
      subst hpe
      subst hqe
      have hie : i = i' := by
        simp only [Nat.sub_self, pow_zero, mul_one] at hi1 hi2; omega
      have hje : j = j' := by
        simp only [Nat.sub_self, pow_zero, mul_one] at hj1 hj2; omega
      subst hie
      subst hje
      exact ⟨idx, iiLoop_succ_stop _ _ fuel idx (by simp)⟩

/-- `claim_C10`: under dyadic containment — the current rectangle
`cr = dy i' p' j' q'` is obtained from the element rectangle
`er = dy i p j q` by a finite sequence of midpoint bisections (at most
63 per direction) — the classification chains of both
`Traverse::init_transforms` and `Traverse::init_idx` succeed at every
iteration (the `assert(0)` branch, modelled by `none`, is unreachable)
and both loops terminate with the tracked rectangle equal to `cr`:
`itLoop` returns `some` with final rectangle `cr` (so `init_transforms`
returns a state), and `init_idx` returns an index.  At most one of the
eight cases can apply at a time because the source checks them in an
`else if` chain. -/
theorem claim_C10 (i p j q i' p' j' q' : Nat)
    (hp63 : p' ≤ 63) (hq63 : q' ≤ 63) (hp : p ≤ p') (hq : q ≤ q')
    (hi1 : i * 2^(p'-p) ≤ i') (hi2 : i' + 1 ≤ (i+1) * 2^(p'-p))
    (hj1 : j * 2^(q'-q) ≤ j') (hj2 : j' + 1 ≤ (j+1) * 2^(q'-q)) :
    (∃ sons, itLoop (dy i' p' j' q') 128 (dy i p j q)
        = some (sons, dy i' p' j' q'))
    ∧ (∀ s : St, ∀ m : Nat, s.cr = dy i' p' j' q' →
        s.er.getD m H2D_UNITY = dy i p j q →
        ∃ s2, init_transforms s m = some s2)
    ∧ (∃ v, init_idx (dy i' p' j' q') (dy i p j q) = some v) := by
  obtain ⟨sons, hsons⟩ := itLoop_dy i' p' j' q' hp63 hq63 128 i p j q
    hp hq hi1 hi2 hj1 hj2 (by omega)
  obtain ⟨v, hv⟩ := iiLoop_dy i' p' j' q' hp63 hq63 128 i p j q 0
    hp hq hi1 hi2 hj1 hj2 (by omega)
  refine ⟨⟨sons, hsons⟩, ?_, ⟨v, by simp only [init_idx, hv]⟩⟩
  intro s m hcr her
  have hres : init_transforms s m
      = some (sons.foldl (fun st son => st.push_transform son m st.is_triangle) s) := by
    simp only [init_transforms, hcr, her, hsons]
  exact ⟨_, hres⟩

/-- Witness for C10 at a concrete dyadic pair: `er` the unit square,
`cr` its right-bottom quadrant `dy 1 1 0 1`. -/
theorem claim_C10_witness :
    (∃ sons, itLoop (dy 1 1 0 1) 128 (dy 0 0 0 0)
        = some (sons, dy 1 1 0 1))
    ∧ (∀ s : St, ∀ m : Nat, s.cr = dy 1 1 0 1 →
        s.er.getD m H2D_UNITY = dy 0 0 0 0 →
        ∃ s2, init_transforms s m = some s2)
    ∧ (∃ v, init_idx (dy 1 1 0 1) (dy 0 0 0 0) = some v) :=
  claim_C10 0 0 0 0 1 1 0 1 (by decide) (by decide) (by decide) (by decide)
    (by decide) (by decide) (by decide) (by decide)

end Hermes
